import Mathlib

/-!
Verification of the signature-parsing / symbol-registry core of
`sphinxcontrib-soliditydomain` (`sphinxcontrib/soliditydomain/domain.py`).

The Python source works on strings through `re` patterns and a dict-based
registry.  We embed it shallowly: strings become `List Char` / `String`,
each `re.sub` / `str.replace` / `fullmatch` / `finditer` becomes an
executable Lean function with the exact scanning-and-backtracking
semantics of the Python pattern, and the registry becomes an association
list keyed by `SolObjFullName` (Python dicts preserve insertion order and
overwrite in place).

Character classes: Python `\w` is `[A-Za-z0-9_]`, `\s` is the six ASCII
whitespace characters (inputs here are ASCII).
-/

/-- Python `\w`: word character. -/
def isWordChar (c : Char) : Bool :=
  c.isAlpha || c.isDigit || c = '_'

/-- Python `\s`: whitespace character. -/
def isSpaceChar (c : Char) : Bool :=
  c = ' ' || c = '\t' || c = '\n' || c = '\r' || c = '\x0b' || c = '\x0c'

/-- Character class `[\w\s\[\]\(\)=>\.]` of the `type` group of
`param_var_re`. -/
def isTypeChar (c : Char) : Bool :=
  isWordChar c || isSpaceChar c ||
    c = '[' || c = ']' || c = '(' || c = ')' || c = '=' || c = '>' || c = '.'

/-!
## Type normalizer (`normalize_type`, domain.py lines 130-136)

The Python function is

```
type_str = re.sub(r"\s*(\W)", r"\1", type_str)
type_str = re.sub(r"(\W)\s*", r"\1", type_str)
type_str = re.sub(r"(\w)\s+(\w)", r"\1 \2", type_str)
type_str = type_str.replace("mapping(", "mapping (")
type_str = type_str.replace("=>", " => ")
```

Each substitution is modelled by the character-level function that `re`'s
left-to-right, leftmost-match scan computes.

`re.sub(r"\s*(\W)", r"\1", s)` (`sub1` below): at a whitespace run the
greedy `\s*` backtracks until `\W` can match, so a run followed by a
non-word non-space character is deleted in front of it, a run followed by
a word character (or the end) collapses to its last character, and a
non-word non-space character on its own is rewritten to itself.  The scan
resumes after each match.

`re.sub(r"(\W)\s*", r"\1", s)` (`sub2`): any non-word character consumes
the whitespace run following it; word characters are copied.  Expressed
as a single scan with a `skip` flag: after emitting a non-word character
the following whitespace is dropped.

`re.sub(r"(\w)\s+(\w)", r"\1 \2", s)` (`sub3`): a word character followed
by a whitespace run followed by a word character is rewritten with a
single space; the scan resumes after the second word character (so that
character cannot start another match — the well-known `re.sub` overlap
behaviour).  Expressed as a scan holding a pending word character and the
whitespace run collected after it.
-/

def sub1 : List Char → List Char
  | [] => []
  | c :: rest =>
    if isSpaceChar c then
      match rest with
      | [] => [c]
      | d :: ds =>
        if isSpaceChar d then sub1 (d :: ds)
        else if isWordChar d then c :: d :: sub1 ds
        else d :: sub1 ds
    else c :: sub1 rest

def sub2go : Bool → List Char → List Char
  | _, [] => []
  | skip, c :: rest =>
    if skip && isSpaceChar c then sub2go true rest
    else if isWordChar c then c :: sub2go false rest
    else c :: sub2go true rest

def sub2 (l : List Char) : List Char := sub2go false l

/-- State of the `sub3` scan: `none` when no word character is pending,
`some (w, acc)` when word character `w` was read and `acc` (reversed) is
the whitespace run read after it. -/
def sub3go : Option (Char × List Char) → List Char → List Char
  | none, [] => []
  | some (w, acc), [] => w :: acc.reverse
  | none, c :: rest =>
    if isWordChar c then sub3go (some (c, [])) rest
    else c :: sub3go none rest
  | some (w, acc), c :: rest =>
    if isSpaceChar c then sub3go (some (w, c :: acc)) rest
    else if isWordChar c then
      if acc.isEmpty then w :: sub3go (some (c, [])) rest
      else w :: ' ' :: c :: sub3go none rest
    else w :: (acc.reverse ++ c :: sub3go none rest)

def sub3 (l : List Char) : List Char := sub3go none l

/-- `str.replace("mapping(", "mapping (")`: left-to-right, non-overlapping,
replacements not rescanned. -/
def repMapping : List Char → List Char
  | 'm' :: 'a' :: 'p' :: 'p' :: 'i' :: 'n' :: 'g' :: '(' :: t =>
    'm' :: 'a' :: 'p' :: 'p' :: 'i' :: 'n' :: 'g' :: ' ' :: '(' :: repMapping t
  | c :: t => c :: repMapping t
  | [] => []

/-- `str.replace("=>", " => ")`: left-to-right, non-overlapping,
replacements not rescanned. -/
def repArrow : List Char → List Char
  | '=' :: '>' :: t => ' ' :: '=' :: '>' :: ' ' :: repArrow t
  | c :: t => c :: repArrow t
  | [] => []

/-- `normalize_type` (domain.py lines 130-136). -/
def normalize_type (s : String) : String :=
  String.mk (repArrow (repMapping (sub3 (sub2 (sub1 s.toList)))))

example : normalize_type "mapping(address=>uint256)" = "mapping (address => uint256)" := by
  decide

example : normalize_type "uint  256" = "uint 256" := by decide

example : normalize_type "uint256 [ ] memory" = "uint256[]memory" := by decide

example : normalize_type (normalize_type "a\tb\tc") = normalize_type "a\tb\tc" := by decide

/-!
## Invariants used by the idempotence proof

`post1` states the shape of `sub1`'s output: every whitespace character
is immediately followed by a word character or the end (in particular no
two adjacent whitespace characters).  `wsok` states the shape of
`sub2 (sub1 _)`: additionally every whitespace character is preceded by a
word character or the start.  `repBoth` fuses the two `str.replace`
passes into one scan — legitimate because the two patterns share no
characters, so their occurrences never overlap and neither replacement
creates an occurrence of the other pattern.
-/

/-- The next character is a word character, or the list ended. -/
def headWordOrEnd : List Char → Bool
  | [] => true
  | d :: _ => isWordChar d

def post1 : List Char → Bool
  | [] => true
  | c :: rest => (if isSpaceChar c then headWordOrEnd rest else true) && post1 rest

def wsokAux : Bool → List Char → Bool
  | _, [] => true
  | p, c :: rest =>
    (if isSpaceChar c then p && headWordOrEnd rest else true) && wsokAux (isWordChar c) rest

def wsok (l : List Char) : Bool := wsokAux true l

/-- The next character is not whitespace (or the list ended). -/
def headNonSpace : List Char → Bool
  | [] => true
  | c :: _ => !isSpaceChar c

/-- Both `str.replace` passes as a single scan (the patterns `mapping(`
and `=>` have no character in common, so their occurrences are disjoint
intervals, and neither replacement is rescanned). -/
def repBoth : List Char → List Char
  | 'm' :: 'a' :: 'p' :: 'p' :: 'i' :: 'n' :: 'g' :: '(' :: t =>
    'm' :: 'a' :: 'p' :: 'p' :: 'i' :: 'n' :: 'g' :: ' ' :: '(' :: repBoth t
  | '=' :: '>' :: t => ' ' :: '=' :: '>' :: ' ' :: repBoth t
  | c :: t => c :: repBoth t
  | [] => []

/-!
## Python string helpers
-/

/-- Python `str.strip()`. -/
def pyStrip (s : String) : String :=
  String.mk (((s.toList.dropWhile isSpaceChar).reverse.dropWhile isSpaceChar).reverse)

/-!
## `param_var_re` (domain.py lines 117-127)

```
\s* ( [\w\s\[\]\(\)=>\.]+? ) # type
(?: \s* \b ( public | private | internal |
             storage | memory | calldata | indexed ) )? # modifier
\s*(\b\w+)? # name
\s*
```

`fullmatch` semantics.  The leading greedy `\s*` backtracks from the full
leading whitespace run; the lazy `+?` type group grows from one character;
the optional qualifier group is tried before being skipped; `\b` holds
iff exactly one neighbour is a word character (ends count as non-word).
All alternation keywords start with a word character, so the `\b` before
the qualifier amounts to: some whitespace was consumed, or the last type
character is a non-word character.  The `\b` of the name group likewise.
-/

structure ParamMatch where
  type_str : String
  memloc : Option String
  name : Option String
deriving DecidableEq, Repr

def qualKeywords : List String :=
  ["public", "private", "internal", "storage", "memory", "calldata", "indexed"]

/-- The `\s*(\b\w+)?\s*` tail of `param_var_re`, started with `prev` as the
character preceding the current position.  Returns `some name?` on success. -/
def matchNamePart (prev : Char) (t : List Char) : Option (Option String) :=
  let run := t.takeWhile isSpaceChar
  let t2 := t.drop run.length
  match t2 with
  | [] => some none
  | c :: _ =>
    if isWordChar c && (!run.isEmpty || !isWordChar prev) then
      let w := t2.takeWhile isWordChar
      let t3 := t2.drop w.length
      if t3.all isSpaceChar then some (some (String.mk w)) else none
    else none

/-- The `(?: \s* \b (keywords) )? \s*(\b\w+)? \s*` tail of `param_var_re`:
the optional qualifier group is greedy, so it is attempted first and the
engine falls back to skipping it if the rest then fails. -/
def matchQualNamePart (prev : Char) (t : List Char) : Option (Option String × Option String) :=
  let run := t.takeWhile isSpaceChar
  let t2 := t.drop run.length
  let withQual : Option (Option String × Option String) :=
    if !run.isEmpty || !isWordChar prev then
      match qualKeywords.find? (fun kw => kw.toList.isPrefixOf t2) with
      | some kw =>
        match matchNamePart (kw.toList.getLastD 'a') (t2.drop kw.length) with
        | some nm => some (some kw, nm)
        | none => none
      | none => none
    else none
  match withQual with
  | some r => some r
  | none => (matchNamePart prev t).map (fun nm => (none, nm))

/-- `param_var_re.fullmatch`: leading `\s*` backtracks from longest, the
lazy type group grows from one character. -/
def paramVarFullmatch (s : String) : Option ParamMatch :=
  let cs := s.toList
  let maxLead := (cs.takeWhile isSpaceChar).length
  (List.range (maxLead + 1)).findSome? (fun d =>
    let rest := cs.drop (maxLead - d)
    let typeRun := (rest.takeWhile isTypeChar).length
    (List.range typeRun).findSome? (fun i =>
      let ty := rest.take (i + 1)
      match matchQualNamePart (ty.getLastD ' ') (rest.drop (i + 1)) with
      | some (q, nm) => some ⟨String.mk ty, q, nm⟩
      | none => none))

example : paramVarFullmatch "uint256 storage x" =
    some ⟨"uint256", some "storage", some "x"⟩ := by decide
example : paramVarFullmatch "address y" = some ⟨"address", none, some "y"⟩ := by decide
example : paramVarFullmatch "uint256 public" = some ⟨"uint256", some "public", none⟩ := by decide
example : paramVarFullmatch "%" = none := by decide
example : paramVarFullmatch "" = none := by decide
example : paramVarFullmatch "mapping (uint => uint) storage m" =
    some ⟨"mapping (uint => uint)", some "storage", some "m"⟩ := by decide

/-!
## `contract_re` (domain.py lines 83-89)

```
\s* (\w+)  # name
(?: \s+ is \s+
    (\w+ (?:\s*,\s* (?:\w+))*)  # parent contracts
)? \s*
```

`fullmatch` semantics.  The name is the maximal leading word run (a
shorter run cannot be followed by `\s+` or `\s*`-then-end).  The optional
`is`-clause is greedy: it is attempted first, and on failure the
remainder must be all whitespace.  The parents capture extends through
the last parent word; the trailing whitespace is consumed by the final
`\s*`.
-/

/-- Recognizer for `\w+(?:\s*,\s*(?:\w+))*\s*` against the whole rest of
the input, as a state machine.  State 0: before the first parent word;
1: inside a word run; 2: in whitespace after a word; 3: after a comma,
before the next word. -/
def parentsOkGo : Nat → List Char → Bool
  | 0, [] => false
  | 0, c :: r => if isWordChar c then parentsOkGo 1 r else false
  | 1, [] => true
  | 1, c :: r =>
    if isWordChar c then parentsOkGo 1 r
    else if isSpaceChar c then parentsOkGo 2 r
    else if c = ',' then parentsOkGo 3 r
    else false
  | 2, [] => true
  | 2, c :: r =>
    if isSpaceChar c then parentsOkGo 2 r
    else if c = ',' then parentsOkGo 3 r
    else false
  | 3, [] => false
  | 3, c :: r =>
    if isSpaceChar c then parentsOkGo 3 r
    else if isWordChar c then parentsOkGo 1 r
    else false
  | _ + 4, _ => false

/-- The `(?:\s+is\s+(parents))?` clause, applied to the input after the
name; returns the parents capture (text up to the last parent word). -/
def isClause (t1 : List Char) : Option String :=
  let run := t1.takeWhile isSpaceChar
  if run.isEmpty then none
  else
    let t2 := t1.drop run.length
    if ['i', 's'].isPrefixOf t2 then
      let t3 := t2.drop 2
      let run2 := t3.takeWhile isSpaceChar
      if run2.isEmpty then none
      else
        let t4 := t3.drop run2.length
        if parentsOkGo 0 t4 then
          some (String.mk (t4.reverse.dropWhile isSpaceChar).reverse)
        else none
    else none

/-- `contract_re.fullmatch`: `(name, parents capture)`. -/
def contractFullmatch (s : String) : Option (String × Option String) :=
  let cs := s.toList
  let t0 := cs.drop (cs.takeWhile isSpaceChar).length
  let nm := t0.takeWhile isWordChar
  if nm.isEmpty then none
  else
    let t1 := t0.drop nm.length
    match isClause t1 with
    | some ps => some (String.mk nm, some ps)
    | none => if t1.all isSpaceChar then some (String.mk nm, none) else none

example : contractFullmatch "Token" = some ("Token", none) := by decide
example : contractFullmatch " ERC20 is Context ,IERC20 " =
    some ("ERC20", some "Context ,IERC20") := by decide
example : contractFullmatch "A is" = none := by decide
example : contractFullmatch "A is B," = none := by decide

/-!
## `function_re` (domain.py lines 170-176) and `modifier_re` (line 207)

```
\s* (\w+)?  # name
\s* \( ([^)]*) \)  # paramlist
\s* ((?:\w+ \s* (?:\([^)]*\))? \s* )*)  # modifiers
\s*
```

`fullmatch` semantics.  `[^)]*` runs to the first `)`.  The modifiers
group is a greedy star of `word [ws] [(args)] [ws]` items; its iterations
consume trailing whitespace into the capture, so after the star the scan
is at the end or at a non-word non-space character, where the final
`\s*` fails — hence any such leftover makes the whole match fail.  The
loop below carries fuel (an upper bound on the remaining length); each
iteration consumes at least one character, so `length` fuel never runs
out.
-/

def modsLoop : Nat → List Char → List Char → Option (List Char)
  | _, cap, [] => some cap
  | 0, _, _ :: _ => none
  | fuel + 1, cap, c :: t =>
    if isWordChar c then
      let w := (c :: t).takeWhile isWordChar
      let t1 := (c :: t).drop w.length
      let r := t1.takeWhile isSpaceChar
      let t2 := t1.drop r.length
      match t2 with
      | '(' :: t3 =>
        let inner := t3.takeWhile (· ≠ ')')
        match t3.drop inner.length with
        | ')' :: t4 =>
          let r2 := t4.takeWhile isSpaceChar
          modsLoop fuel (cap ++ w ++ r ++ '(' :: (inner ++ ')' :: r2)) (t4.drop r2.length)
        | _ => modsLoop fuel (cap ++ w ++ r) t2
      | _ => modsLoop fuel (cap ++ w ++ r) t2
    else none

/-- `function_re.fullmatch`: `(name?, paramlist, modifiers capture)`. -/
def functionFullmatch (s : String) : Option (Option String × String × String) :=
  let cs := s.toList
  let t0 := cs.drop (cs.takeWhile isSpaceChar).length
  let nm := t0.takeWhile isWordChar
  let nameOpt := if nm.isEmpty then none else some (String.mk nm)
  let t1 := t0.drop nm.length
  let t1b := t1.drop (t1.takeWhile isSpaceChar).length
  match t1b with
  | '(' :: t2 =>
    let pl := t2.takeWhile (· ≠ ')')
    match t2.drop pl.length with
    | ')' :: t3 =>
      let t4 := t3.drop (t3.takeWhile isSpaceChar).length
      match modsLoop t4.length [] t4 with
      | some cap => some (nameOpt, String.mk pl, String.mk cap)
      | none => none
    | _ => none
  | _ => none

example : functionFullmatch "() external payable" = some (none, "", "external payable") := by
  decide
example : functionFullmatch "(uint256 x) external" = some (none, "uint256 x", "external") := by
  decide
example : functionFullmatch "f(%)" = some (some "f", "%", "") := by decide
example : functionFullmatch "f() , x" = none := by decide

/-- `modifier_re.finditer`: successive matches of `(\w+)(?:\s*\(([^)]*)\))?`,
skipping characters that start no match.  Fuel as in `modsLoop`. -/
def modFindGo : Nat → List Char → List (String × Option String)
  | _, [] => []
  | 0, _ :: _ => []
  | fuel + 1, c :: t =>
    if isWordChar c then
      let w := (c :: t).takeWhile isWordChar
      let t1 := (c :: t).drop w.length
      let r := t1.takeWhile isSpaceChar
      match t1.drop r.length with
      | '(' :: t2 =>
        let inner := t2.takeWhile (· ≠ ')')
        match t2.drop inner.length with
        | ')' :: t3 => (String.mk w, some (String.mk inner)) :: modFindGo fuel t3
        | _ => (String.mk w, none) :: modFindGo fuel t1
      | _ => (String.mk w, none) :: modFindGo fuel t1
    else modFindGo fuel t

def modifierFinditer (s : String) : List (String × Option String) :=
  modFindGo s.toList.length s.toList

example : modifierFinditer "external payable" = [("external", none), ("payable", none)] := by
  decide
example : modifierFinditer "onlyOwner(a, b) view" =
    [("onlyOwner", some "a, b"), ("view", none)] := by decide

/-!
## Canonical identity (`SolObjFullName`, `fullname2namepath`, `fullname2id`,
domain.py lines 16-28)
-/

structure SolObjFullName where
  name : String
  obj_path : List String
  param_types : Option (List String)
deriving DecidableEq, Repr

def fullname2namepath (fullname : SolObjFullName) : String :=
  String.intercalate "." (fullname.obj_path ++ [fullname.name])

def fullname2id (fullname : SolObjFullName) : String :=
  fullname2namepath fullname ++
    (match fullname.param_types with
     | none => ""
     | some ts => "(" ++ String.intercalate "," ts ++ ")")

/-!
## `_parse_params` (domain.py lines 179-204)

Splits the parenthesized parameter list on `","`, fullmatches every
segment against `param_var_re`, and produces the rendered parameter texts
together with the "ABI type" sequence (`normalize_type` of the type, with
`" storage"` appended exactly when the qualifier is `storage`).  Returns
`none` when some segment fails to match — the Python function returns
`None` there, while its callers unpack the result as a tuple.
-/

/-- Python `str.split(",")`: split at every comma. -/
def splitOnCommaGo : List Char → List Char → List (List Char)
  | acc, [] => [acc.reverse]
  | acc, c :: t =>
    if c = ',' then acc.reverse :: splitOnCommaGo [] t else splitOnCommaGo (c :: acc) t

def splitOnComma (s : String) : List String :=
  (splitOnCommaGo [] s.toList).map String.mk

def paramAbi (m : ParamMatch) : String :=
  normalize_type m.type_str ++ (if m.memloc = some "storage" then " storage" else "")

/-- `" ".join(filter(lambda x: x, (atype, memloc, name)))`: drops `None`
and empty strings. -/
def paramText (m : ParamMatch) : String :=
  String.intercalate " "
    ((([normalize_type m.type_str] ++ m.memloc.toList ++ m.name.toList).filter
      (fun s => !s.isEmpty)))

def _parse_params (paramlist_str : String) : Option (List String × List String) :=
  if pyStrip paramlist_str = "" then some ([], [])
  else
    let parammatches := (splitOnComma paramlist_str).map paramVarFullmatch
    if parammatches.all Option.isSome then
      let ms := parammatches.filterMap id
      some (ms.map paramText, ms.map paramAbi)
    else none

example : _parse_params "" = some ([], []) := by decide
example : _parse_params "uint256 storage x, address y" =
    some (["uint256 storage x", "address y"], ["uint256 storage", "address"]) := by decide
example : _parse_params "%" = none := by decide

/-!
## Declaration kinds and `handle_signature` (domain.py lines 92-114,
139-167, 210-307, 341-352)

The domain's `directives` table maps exactly ten kinds to the three
directive classes.  Parse failures are logged as warnings and yield
`None`; we record which warning through `ParseFailure`.  `raised` models
an uncaught Python exception: `handle_signature` unpacks
`_parse_params(...)` as a tuple (line 258) and subscripts
`_parse_params(...)[0]` (line 287), both of which raise `TypeError` when
`_parse_params` returns `None`.
-/

inductive ObjType
  | contract | library | interface | statevar | constructor | function | modifier | event
  | struct | enum
deriving DecidableEq, Repr

def ObjType.toString : ObjType → String
  | .contract => "contract"
  | .library => "library"
  | .interface => "interface"
  | .statevar => "statevar"
  | .constructor => "constructor"
  | .function => "function"
  | .modifier => "modifier"
  | .event => "event"
  | .struct => "struct"
  | .enum => "enum"

inductive ParseFailure
  | malformed | missingName | fallbackHasParams | modifierHasModifiers | unexpectedArgs
deriving DecidableEq, Repr

inductive SigResult (α : Type)
  | ok (a : α)
  | failed (e : ParseFailure)
  | raised
deriving DecidableEq, Repr

/-- `SolidityTypeLike.handle_signature` (lines 92-114): the full name plus
the parsed parent list. -/
def handleTypeLike (sig : String) (obj_path : List String) :
    SigResult (SolObjFullName × List String) :=
  match contractFullmatch sig with
  | none => .failed .malformed
  | some (name, parents_str) =>
    let parents := match parents_str with
      | none => []
      | some ps => (splitOnComma ps).map pyStrip
    .ok (⟨name, obj_path, none⟩, parents)

/-- `SolidityStateVariable.handle_signature` (lines 139-167). -/
def handleStateVariable (sig : String) (obj_path : List String) : SigResult SolObjFullName :=
  match paramVarFullmatch sig with
  | none => .failed .malformed
  | some m =>
    match m.name with
    | none => .failed .missingName
    | some name => .ok ⟨name, obj_path, none⟩

def bareKeywords : List String :=
  ["public", "private", "external", "internal", "pure", "view", "payable", "anonymous"]

/-- The modifier loop of `SolidityFunctionLike.handle_signature`
(lines 266-298): a bare keyword with an argument list is rejected;
`returns` feeds its argument list back through `_parse_params`, and the
Python code subscripts that result (`[0]`), raising `TypeError` when it
is `None`; other names render as free-form modifiers. -/
def processModifiers : List (String × Option String) → SigResult Unit
  | [] => .ok ()
  | (modname, modparams) :: rest =>
    if modname ∈ bareKeywords then
      match modparams with
      | some _ => .failed .unexpectedArgs
      | none => processModifiers rest
    else if modname = "returns" then
      match modparams with
      | some ps =>
        match _parse_params ps with
        | none => .raised
        | some _ => processModifiers rest
      | none => processModifiers rest
    else processModifiers rest

structure FunctionSig where
  fullname : SolObjFullName
  params : List String
  modifiers : List (String × Option String)
deriving DecidableEq, Repr

/-- The `if name is None:` block of `SolidityFunctionLike.handle_signature`
(lines 236-253): an anonymous `constructor` becomes `constructor`, an
anonymous `function` becomes `<fallback>` provided the parameter list is
empty after stripping, and any other kind requires a name. -/
def resolveName (objtype : String) (nameOpt : Option String) (paramlist_str : String) :
    SigResult String :=
  match nameOpt with
  | none =>
    if objtype = "constructor" then .ok "constructor"
    else if objtype = "function" then
      if pyStrip paramlist_str ≠ "" then .failed .fallbackHasParams
      else .ok "<fallback>"
    else .failed .missingName
  | some n => .ok n

/-- `SolidityFunctionLike.handle_signature` (lines 226-307), with
`objtype` the directive kind string.  Steps, in source order: fullmatch;
name resolution via `resolveName` (a fallback with parameters is rejected
before the parameter list is ever parsed); `_parse_params` (whose `None`
is unpacked — `raised`); the `modifier`-kind modifier-list check; the
modifier loop; finally `param_types` is discarded unless the kind is
`function` or `event`. -/
def handleFunctionLike (objtype : String) (sig : String) (obj_path : List String) :
    SigResult FunctionSig :=
  match functionFullmatch sig with
  | none => .failed .malformed
  | some (nameOpt, paramlist_str, modifiers_str) =>
    match resolveName objtype nameOpt paramlist_str with
    | .failed e => .failed e
    | .raised => .raised
    | .ok name =>
      match _parse_params paramlist_str with
      | none => .raised
      | some (ptexts, param_types) =>
        if objtype = "modifier" ∧ pyStrip modifiers_str ≠ "" then
          .failed .modifierHasModifiers
        else
          match processModifiers (modifierFinditer modifiers_str) with
          | .failed e => .failed e
          | .raised => .raised
          | .ok _ =>
            .ok ⟨⟨name, obj_path,
                  if objtype = "function" ∨ objtype = "event" then some param_types else none⟩,
                 ptexts, modifierFinditer modifiers_str⟩

/-- Dispatch of `handle_signature` by the `directives` table
(lines 341-352), projected to the returned full name. -/
def handleSignature (t : ObjType) (sig : String) (obj_path : List String) :
    SigResult SolObjFullName :=
  match t with
  | .contract | .library | .interface | .struct | .enum =>
    match handleTypeLike sig obj_path with
    | .ok r => .ok r.1
    | .failed e => .failed e
    | .raised => .raised
  | .statevar => handleStateVariable sig obj_path
  | .constructor | .function | .modifier | .event =>
    match handleFunctionLike t.toString sig obj_path with
    | .ok r => .ok r.fullname
    | .failed e => .failed e
    | .raised => .raised

example : handleFunctionLike "function" "() external payable" [] =
    .ok ⟨⟨"<fallback>", [], some []⟩, [], [("external", none), ("payable", none)]⟩ := by decide
example : handleFunctionLike "function" "(uint256 x) external" [] =
    .failed .fallbackHasParams := by decide
example : handleFunctionLike "constructor" "() public" [] =
    .ok ⟨⟨"constructor", [], none⟩, [], [("public", none)]⟩ := by decide
example : handleFunctionLike "event" "() anonymous" [] = .failed .missingName := by decide
example : handleFunctionLike "event" "Transfer(address a, uint256 v)" [] =
    .ok ⟨⟨"Transfer", [], some ["address", "uint256"]⟩, ["address a", "uint256 v"],
         []⟩ := by decide
example : handleFunctionLike "modifier" "(uint x)" [] =
    .failed .missingName := by decide
example : handleFunctionLike "function" "f(%)" [] = .raised := by decide
example : handleFunctionLike "function" "f() returns (%)" [] = .raised := by decide

/-!
## Symbol registry (`env.domaindata["sol"]["objects"]`, domain.py
lines 31-47, 367-409)

A Python dict from `SolObjFullName` to `(docname, objtype)`, modelled as
an association list in iteration (insertion) order: assignment to an
existing key overwrites in place, assignment to a fresh key appends.
-/

abbrev Registry := List (SolObjFullName × String × String)

def regLookup (reg : Registry) (fullname : SolObjFullName) : Option (String × String) :=
  (reg.find? (fun e => e.1 == fullname)).map (·.2)

/-- Python `objects[fullname] = (docname, objtype)`. -/
def dictInsert (reg : Registry) (fullname : SolObjFullName) (v : String × String) : Registry :=
  if reg.any (fun e => e.1 == fullname) then
    reg.map (fun e => if e.1 == fullname then (fullname, v) else e)
  else reg ++ [(fullname, v)]

/-- The registry effect of `SolidityObject.add_target_and_index`
(lines 36-47): when `fullname` is already registered, a duplicate warning
naming the other entry's document (`otherloc`) and the current document
is emitted; the entry is overwritten either way.  (The surrounding
`fullname not in self.state.document.ids` guard compares a tuple against
a dict of id strings and therefore always passes.) -/
def insertObject (reg : Registry) (fullname : SolObjFullName) (docname objtype : String) :
    Option (String × String) × Registry :=
  match regLookup reg fullname with
  | some (otherloc, _) => (some (otherloc, docname), dictInsert reg fullname (docname, objtype))
  | none => (none, dictInsert reg fullname (docname, objtype))

/-- `SolidityDomain.clear_doc` (lines 371-375). -/
def clearDoc (reg : Registry) (docname : String) : Registry :=
  reg.filter (fun e => e.2.1 ≠ docname)

/-- `SolidityDomain.merge_domaindata` (lines 377-382). -/
def mergeDomaindata (reg : Registry) (otherdata : Registry) (docnames : List String) :
    Registry :=
  otherdata.foldl (fun acc e => if e.2.1 ∈ docnames then dictInsert acc e.1 e.2 else acc) reg

/-- `SolidityDomain.resolve_xref` (lines 384-409): first entry of the
registry iteration whose full name's `name` equals the target, from which
the reference node is built (origin document, anchor id, display name). -/
def resolveXref (reg : Registry) (target : String) : Option (SolObjFullName × String × String) :=
  reg.find? (fun e => e.1.name == target)

/-!
## Index classifier and scope-path hooks (domain.py lines 49-80)
-/

/-- The glossary classifier of `add_target_and_index` (lines 50-57):
`(fullname.obj_path or ("?",))[-1][0].upper()` for a `constructor` or an
anonymous `function`, else `fullname.name[:1].upper()`.  (`[-1]` is the
*last* path segment; `[0]` on the segment is modelled by `take 1` —
segments come from `\w+` captures and are nonempty.) -/
def pyUpper (s : String) : String :=
  String.mk (s.toList.map Char.toUpper)

def pyTake1 (s : String) : String :=
  String.mk (s.toList.take 1)

def glossaryClassifier (objtype : String) (fullname : SolObjFullName) : String :=
  if objtype = "constructor" ∨ (objtype = "function" ∧ fullname.name = "<fallback>") then
    pyUpper (pyTake1 (fullname.obj_path.getLastD "?"))
  else pyUpper (pyTake1 fullname.name)

/-- `SolidityObject.before_content` (lines 68-73): when a signature was
processed, its result (`self.names`' last element) is popped; the scope
path grows by the declaration's name only when that result is an actual
full name (`hasattr(last_name, "name")`), i.e. not the `None` produced
by a failed parse. -/
def before_content (names : List (Option SolObjFullName)) (obj_path : List String) :
    List String :=
  if names.isEmpty then obj_path
  else
    match names.getLast? with
    | some (some fullname) => obj_path ++ [fullname.name]
    | _ => obj_path

/-- `SolidityObject.after_content` (lines 75-80): unconditionally pop one
element, swallowing the `IndexError` of an empty path. -/
def after_content (obj_path : List String) : List String :=
  obj_path.dropLast

example :
    insertObject [(⟨"Token", [], none⟩, "doc1", "contract")] ⟨"Token", [], none⟩
      "doc2" "contract" =
    (some ("doc1", "doc2"), [(⟨"Token", [], none⟩, "doc2", "contract")]) := by decide

example : glossaryClassifier "constructor" ⟨"constructor", ["Alpha", "Beta"], none⟩ = "B" := by
  decide

/-!
## Registry lemmas
-/

theorem regLookup_nil (fn : SolObjFullName) : regLookup [] fn = none := rfl

theorem regLookup_cons (e : SolObjFullName × String × String) (reg : Registry)
    (fn : SolObjFullName) :
    regLookup (e :: reg) fn = if e.1 = fn then some e.2 else regLookup reg fn := by
  by_cases h : e.1 = fn
  · simp only [regLookup, List.find?_cons, beq_iff_eq, h, if_true]
    simp [h]
  · simp only [regLookup, List.find?_cons]
    have hb : (e.1 == fn) = false := by simpa using h
    simp [hb, h]

theorem regLookup_updMap (reg : Registry) (fn fnb : SolObjFullName) (v : String × String)
    (h : fnb ≠ fn) :
    regLookup (reg.map (fun e => if e.1 == fn then (fn, v) else e)) fnb = regLookup reg fnb := by
  induction reg with
  | nil => rfl
  | cons e rest ih =>
    simp only [List.map_cons]
    by_cases he : (e.1 == fn) = true
    · rw [if_pos he, regLookup_cons, regLookup_cons]
      have he1 : e.1 = fn := by simpa using he
      rw [he1]
      rw [if_neg (Ne.symm h), if_neg (Ne.symm h)]
      exact ih
    · rw [if_neg he, regLookup_cons, regLookup_cons]
      by_cases heb : e.1 = fnb
      · rw [if_pos heb, if_pos heb]
      · rw [if_neg heb, if_neg heb]
        exact ih

theorem regLookup_updMap_self (reg : Registry) (fn : SolObjFullName) (v : String × String)
    (h : reg.any (fun e => e.1 == fn)) :
    regLookup (reg.map (fun e => if e.1 == fn then (fn, v) else e)) fn = some v := by
  induction reg with
  | nil => simp at h
  | cons e rest ih =>
    simp only [List.map_cons]
    by_cases he : (e.1 == fn) = true
    · rw [if_pos he, regLookup_cons]
      simp
    · rw [if_neg he, regLookup_cons]
      have he1 : ¬ e.1 = fn := by simpa using he
      rw [if_neg he1]
      have h2 : rest.any (fun e => e.1 == fn) = true := by
        simp only [List.any_cons, Bool.or_eq_true] at h
        tauto
      exact ih h2

theorem regLookup_append_single_ne (reg : Registry) (fn fnb : SolObjFullName)
    (v : String × String) (h : fnb ≠ fn) :
    regLookup (reg ++ [(fn, v)]) fnb = regLookup reg fnb := by
  induction reg with
  | nil =>
    rw [List.nil_append, regLookup_cons, regLookup_nil]
    exact if_neg (fun hh => h (Eq.symm hh))
  | cons e rest ih =>
    rw [List.cons_append, regLookup_cons, regLookup_cons]
    by_cases he : e.1 = fnb
    · rw [if_pos he, if_pos he]
    · rw [if_neg he, if_neg he]
      exact ih

theorem regLookup_append_single_self (reg : Registry) (fn : SolObjFullName)
    (v : String × String) :
    regLookup (reg ++ [(fn, v)]) fn = some ((regLookup reg fn).getD v) := by
  induction reg with
  | nil => simp [regLookup_cons, regLookup_nil]
  | cons e rest ih =>
    rw [List.cons_append, regLookup_cons, regLookup_cons]
    by_cases he : e.1 = fn
    · rw [if_pos he, if_pos he]
      rfl
    · rw [if_neg he, if_neg he]
      exact ih

theorem regLookup_eq_none_of_not_any (reg : Registry) (fn : SolObjFullName)
    (hany : ¬ reg.any (fun e => e.1 == fn) = true) : regLookup reg fn = none := by
  have hf : List.find? (fun e => e.1 == fn) reg = none := by
    rw [List.find?_eq_none]
    intro e he
    simp only [List.any_eq_true] at hany
    exact fun hb => hany ⟨e, he, hb⟩
  simp [regLookup, hf]

theorem regLookup_dictInsert_self (reg : Registry) (fn : SolObjFullName) (v : String × String) :
    regLookup (dictInsert reg fn v) fn = some v := by
  unfold dictInsert
  by_cases hany : reg.any (fun e => e.1 == fn) = true
  · rw [if_pos hany]
    exact regLookup_updMap_self reg fn v hany
  · rw [if_neg hany]
    rw [regLookup_append_single_self, regLookup_eq_none_of_not_any reg fn hany]
    rfl

theorem regLookup_dictInsert_ne (reg : Registry) (fn fnb : SolObjFullName) (v : String × String)
    (h : fnb ≠ fn) :
    regLookup (dictInsert reg fn v) fnb = regLookup reg fnb := by
  unfold dictInsert
  by_cases hany : reg.any (fun e => e.1 == fn) = true
  · rw [if_pos hany]
    exact regLookup_updMap reg fn fnb v h
  · rw [if_neg hany]
    exact regLookup_append_single_ne reg fn fnb v h

theorem any_filter_of_any {α} (p q : α → Bool) (l : List α)
    (h : (l.filter q).any p = true) : l.any p = true := by
  rw [List.any_eq_true] at h ⊢
  rcases h with ⟨x, hx, hpx⟩
  exact ⟨x, (List.mem_filter.mp hx).1, hpx⟩

/-- `clear_doc` on a duplicate-free registry, seen through lookup: the
entry survives exactly when its origin is not the cleared document. -/
theorem regLookup_clearDoc (reg : Registry) (D : String) (fn : SolObjFullName)
    (hnd : (reg.map Prod.fst).Nodup) :
    regLookup (clearDoc reg D) fn =
      (regLookup reg fn).bind (fun v => if v.1 = D then none else some v) := by
  induction reg with
  | nil => rfl
  | cons e rest ih =>
    rw [List.map_cons, List.nodup_cons] at hnd
    rw [regLookup_cons]
    unfold clearDoc
    rw [List.filter_cons]
    by_cases hd : e.2.1 = D
    · have : (e.2.1 ≠ D : Bool) = false := by simp [hd]
      rw [if_neg (by simp [this])]
      by_cases he : e.1 = fn
      · rw [if_pos he]
        have hnone : regLookup (clearDoc rest D) fn = none := by
          apply regLookup_eq_none_of_not_any
          intro hany
          have : rest.any (fun x => x.1 == fn) = true := any_filter_of_any _ _ _ hany
          rw [List.any_eq_true] at this
          rcases this with ⟨x, hx, hbx⟩
          exact hnd.1 (he ▸ (by simpa using hbx) ▸ List.mem_map_of_mem Prod.fst hx)
        rw [show clearDoc rest D = rest.filter (fun e => e.2.1 ≠ D) from rfl] at hnone
        rw [hnone]
        simp [hd]
      · rw [if_neg he]
        exact ih hnd.2
    · have : (e.2.1 ≠ D : Bool) = true := by simp [hd]
      rw [if_pos (by simp [this]), regLookup_cons]
      by_cases he : e.1 = fn
      · rw [if_pos he, if_pos he]
        simp [hd]
      · rw [if_neg he, if_neg he]
        exact ih hnd.2

theorem mergeDomaindata_nil (reg : Registry) (docs : List String) :
    mergeDomaindata reg [] docs = reg := rfl

theorem mergeDomaindata_cons (reg : Registry) (e : SolObjFullName × String × String)
    (rest : Registry) (docs : List String) :
    mergeDomaindata reg (e :: rest) docs =
      mergeDomaindata (if e.2.1 ∈ docs then dictInsert reg e.1 e.2 else reg) rest docs := by
  unfold mergeDomaindata
  rw [List.foldl_cons]

/-- Merging entries that never touch `fn` leaves `fn`'s lookup alone. -/
theorem regLookup_merge_untouched (other : Registry) (reg : Registry) (docs : List String)
    (fn : SolObjFullName) (h : ∀ e ∈ other, e.1 ≠ fn ∨ e.2.1 ∉ docs) :
    regLookup (mergeDomaindata reg other docs) fn = regLookup reg fn := by
  induction other generalizing reg with
  | nil => rfl
  | cons e rest ih =>
    rw [mergeDomaindata_cons]
    by_cases hdoc : e.2.1 ∈ docs
    · rw [if_pos hdoc]
      have hne : e.1 ≠ fn := by
        rcases h e (List.mem_cons_self e rest) with h1 | h1
        · exact h1
        · exact absurd hdoc h1
      rw [ih _ (fun x hx => h x (List.mem_cons_of_mem e hx))]
      exact regLookup_dictInsert_ne reg e.1 fn e.2 (Ne.symm hne)
    · rw [if_neg hdoc]
      exact ih _ (fun x hx => h x (List.mem_cons_of_mem e hx))

/-- `merge_domaindata` on a duplicate-free partial registry, through
lookup: the first (= only) matching entry of the partial registry wins,
otherwise the global entry is untouched. -/
theorem regLookup_merge (other : Registry) (reg : Registry) (docs : List String)
    (fn : SolObjFullName) (hnd : (other.map Prod.fst).Nodup) :
    regLookup (mergeDomaindata reg other docs) fn =
      (match other.find? (fun e => e.1 == fn && decide (e.2.1 ∈ docs)) with
       | some e => some e.2
       | none => regLookup reg fn) := by
  induction other generalizing reg with
  | nil => rfl
  | cons e rest ih =>
    rw [List.map_cons, List.nodup_cons] at hnd
    rw [mergeDomaindata_cons, List.find?_cons]
    by_cases hsel : (e.1 == fn && decide (e.2.1 ∈ docs)) = true
    · rw [hsel]
      have he : e.1 = fn := by
        have := (Bool.and_eq_true _ _).mp hsel
        simpa using this.1
      have hdoc : e.2.1 ∈ docs := by
        have := (Bool.and_eq_true _ _).mp hsel
        simpa using this.2
      rw [if_pos hdoc]
      rw [regLookup_merge_untouched rest _ docs fn ?notouch]
      · rw [he]
        exact regLookup_dictInsert_self reg fn e.2
      · intro x hx
        left
        intro hxfn
        exact hnd.1 (he ▸ hxfn ▸ List.mem_map_of_mem Prod.fst hx)
    · rw [Bool.not_eq_true] at hsel
      rw [hsel]
      by_cases hdoc : e.2.1 ∈ docs
      · rw [if_pos hdoc]
        rw [ih _ hnd.2]
        have hne : e.1 ≠ fn := by
          intro hh
          apply absurd hsel
          simp [hh, hdoc]
        cases hfind : rest.find? (fun x => x.1 == fn && decide (x.2.1 ∈ docs)) with
        | some x => rfl
        | none =>
          exact regLookup_dictInsert_ne reg e.1 fn e.2 (Ne.symm hne)
      · rw [if_neg hdoc]
        exact ih _ hnd.2

/-!
## Claim theorems
-/

/-- C2 (counterexample): the spec's middle normalization expectation is
inverted — `normalize("uint  256") == "uint 256"` does hold — and the
third example actually loses the space: `normalize("uint256 [ ] memory")`
is `"uint256[]memory"`, not `"uint256[] memory"` (the second regex pass
deletes whitespace after the non-word `]`). -/
theorem C2_counterexample :
    normalize_type "uint  256" = "uint 256" ∧
    normalize_type "uint256 [ ] memory" = "uint256[]memory" ∧
    normalize_type "uint256 [ ] memory" ≠ "uint256[] memory" := by decide

/-- C2 (amended): on the spec's concrete examples the normalizer returns
`normalize("mapping(address=>uint256)") = "mapping (address => uint256)"`,
`normalize("uint  256") = "uint 256"` (the equation DOES hold), and
`normalize("uint256 [ ] memory") = "uint256[]memory"`. -/
theorem C2_normalization_examples :
    normalize_type "mapping(address=>uint256)" = "mapping (address => uint256)" ∧
    normalize_type "uint  256" = "uint 256" ∧
    normalize_type "uint256 [ ] memory" = "uint256[]memory" := by decide

/-- C5 (code bug): when a function-like signature's parenthesized
parameter list contains a segment that does not match `param_var_re`,
`_parse_params` returns `None`, and `handle_signature` (line 258) unpacks
that `None` as a tuple, raising an uncaught `TypeError` instead of
reporting the failure and returning `None`. -/
theorem C5_param_parse_failure_raises :
    _parse_params "%" = none ∧
    handleFunctionLike "function" "f(%)" [] = .raised ∧
    handleSignature .function "f(%)" [] = .raised ∧
    handleFunctionLike "function" "f() returns (%)" [] = .raised := by decide

/-- C7: inserting a `FullName` already present in the registry reports a
duplicate warning identifying both origin documents (the other entry's
document and the inserting one's), and the entry is nevertheless
overwritten with the new `(origin document, kind)` pair — the insertion
itself never fails. -/
theorem C7_duplicate_insert_overwrites (reg : Registry) (fn : SolObjFullName)
    (docname objtype : String) (prev : String × String)
    (h : regLookup reg fn = some prev) :
    (insertObject reg fn docname objtype).1 = some (prev.1, docname) ∧
    regLookup (insertObject reg fn docname objtype).2 fn = some (docname, objtype) := by
  obtain ⟨p1, p2⟩ := prev
  unfold insertObject
  rw [h]
  exact ⟨rfl, regLookup_dictInsert_self reg fn (docname, objtype)⟩

theorem C7_duplicate_insert_overwrites_witness :
    regLookup [(⟨"Token", [], none⟩, ("doc1", "contract"))] ⟨"Token", [], none⟩ =
      some ("doc1", "contract") ∧
    ((insertObject [(⟨"Token", [], none⟩, ("doc1", "contract"))] ⟨"Token", [], none⟩
        "doc2" "contract").1 = some ("doc1", "doc2") ∧
      regLookup (insertObject [(⟨"Token", [], none⟩, ("doc1", "contract"))]
        ⟨"Token", [], none⟩ "doc2" "contract").2 ⟨"Token", [], none⟩ =
        some ("doc2", "contract")) :=
  ⟨by decide,
   C7_duplicate_insert_overwrites [(⟨"Token", [], none⟩, ("doc1", "contract"))]
     ⟨"Token", [], none⟩ "doc2" "contract" ("doc1", "contract") (by decide)⟩

/-- C10: the scope-path hooks are unpaired: `before_content` pushes the
declaration's name exactly when the signature parsed to a full name
(for every declaration kind — the hooks live on the common base class),
while `after_content` always pops one element, silently doing nothing on
an empty path; hence after a failed parse, leaving the content removes
the enclosing scope's name. -/
theorem C10_scope_hooks :
    (∀ names obj_path (fn : SolObjFullName), names.getLast? = some (some fn) →
      before_content names obj_path = obj_path ++ [fn.name]) ∧
    (∀ names obj_path, names.getLast? = some none → before_content names obj_path = obj_path) ∧
    (∀ obj_path, after_content obj_path = obj_path.dropLast) ∧
    (after_content [] = []) ∧
    (∀ obj_path outer, after_content (before_content [none] (obj_path ++ [outer])) = obj_path) := by
  refine ⟨?_, ?_, fun _ => rfl, rfl, ?_⟩
  · intro names obj_path fn h
    unfold before_content
    cases names with
    | nil => simp at h
    | cons a t =>
      rw [if_neg (by simp)]
      rw [h]
  · intro names obj_path h
    unfold before_content
    cases names with
    | nil => simp at h
    | cons a t =>
      rw [if_neg (by simp)]
      rw [h]
  · intro obj_path outer
    show after_content (before_content [none] (obj_path ++ [outer])) = obj_path
    have h1 : before_content [none] (obj_path ++ [outer]) = obj_path ++ [outer] := rfl
    rw [h1]
    unfold after_content
    simp

theorem C10_scope_hooks_witness :
    before_content [some ⟨"Token", [], none⟩] [] = [] ++ ["Token"] ∧
    before_content [none] ["Token"] = ["Token"] ∧
    after_content (before_content [none] (["Outer"] ++ ["Token"])) = ["Outer"] :=
  ⟨C10_scope_hooks.1 [some ⟨"Token", [], none⟩] [] ⟨"Token", [], none⟩ (by decide),
   C10_scope_hooks.2.1 [none] ["Token"] (by decide),
   C10_scope_hooks.2.2.2.2 ["Outer"] "Token"⟩

/-- C6 (counterexample): for a `constructor` with scope path
`["Alpha", "Beta"]` the classifier is `"B"` — the first character of the
innermost (last) segment, not of the outermost (first) one; and for
other entries the character is additionally uppercased (`"total"` gives
`"T"`, not `"t"`). -/
theorem C6_counterexample :
    glossaryClassifier "constructor" ⟨"constructor", ["Alpha", "Beta"], none⟩ = "B" ∧
    "B" ≠ "A" ∧
    glossaryClassifier "statevar" ⟨"total", [], none⟩ = "T" ∧
    "T" ≠ "t" := by decide

/-- C6 (amended): for `constructor` entries and `function` entries named
`<fallback>` with a non-empty scope path, the glossary classifier is the
uppercased first character of the *innermost (last)* scope-path segment;
for every other entry it is the uppercased first character of the
entry's own name. -/
theorem C6_glossary_classifier (objtype : String) (fn : SolObjFullName)
    (path : List String) (seg : String) :
    ((objtype = "constructor" ∨ (objtype = "function" ∧ fn.name = "<fallback>")) →
      fn.obj_path = path ++ [seg] →
      glossaryClassifier objtype fn = pyUpper (pyTake1 seg)) ∧
    (¬ (objtype = "constructor" ∨ (objtype = "function" ∧ fn.name = "<fallback>")) →
      glossaryClassifier objtype fn = pyUpper (pyTake1 fn.name)) := by
  constructor
  · intro hc hp
    unfold glossaryClassifier
    rw [if_pos hc, hp]
    simp
  · intro hc
    unfold glossaryClassifier
    rw [if_neg hc]

theorem C6_glossary_classifier_witness :
    glossaryClassifier "function" ⟨"<fallback>", ["A", "Token"], none⟩ =
      pyUpper (pyTake1 "Token") ∧
    glossaryClassifier "function" ⟨"transfer", ["Token"], none⟩ = pyUpper (pyTake1 "transfer") :=
  ⟨(C6_glossary_classifier "function" ⟨"<fallback>", ["A", "Token"], none⟩ ["A"] "Token").1
      (by decide) (by decide),
   (C6_glossary_classifier "function" ⟨"transfer", ["Token"], none⟩ [] "").2 (by decide)⟩

theorem find?_first {α : Type} (p : α → Bool) (l : List α) (a : α)
    (h : l.find? p = some a) :
    ∃ pre post, l = pre ++ a :: post ∧ ∀ x ∈ pre, ¬ p x := by
  induction l with
  | nil => simp at h
  | cons b t ih =>
    rw [List.find?_cons] at h
    by_cases hb : p b = true
    · rw [hb] at h
      obtain rfl : b = a := Option.some.inj h
      exact ⟨[], t, rfl, by simp⟩
    · rw [Bool.not_eq_true] at hb
      rw [hb] at h
      rcases ih h with ⟨pre, post, heq, hpre⟩
      refine ⟨b :: pre, post, by rw [heq]; rfl, ?_⟩
      intro x hx
      rcases List.mem_cons.mp hx with rfl | hx
      · simp [hb]
      · exact hpre x hx

/-- C9: `resolve_xref` scans the registry in iteration order and returns
the first entry whose `FullName.name` equals the target (scope path and
parameter types ignored); `none` exactly when no entry has that name. -/
theorem C9_resolver_first_match (reg : Registry) (target : String) :
    (resolveXref reg target = none ↔ ∀ e ∈ reg, e.1.name ≠ target) ∧
    (∀ e, resolveXref reg target = some e →
      e.1.name = target ∧ e ∈ reg ∧
      ∃ pre post, reg = pre ++ e :: post ∧ ∀ x ∈ pre, x.1.name ≠ target) := by
  constructor
  · unfold resolveXref
    rw [List.find?_eq_none]
    constructor
    · intro h e he
      simpa using h e he
    · intro h e he
      simpa using h e he
  · intro e he
    unfold resolveXref at he
    refine ⟨by simpa using List.find?_some he, List.mem_of_find?_eq_some he, ?_⟩
    rcases find?_first _ _ _ he with ⟨pre, post, heq, hpre⟩
    exact ⟨pre, post, heq, fun x hx => by simpa using hpre x hx⟩

theorem C9_resolver_first_match_witness :
    ((⟨"Foo", [], none⟩, ("d1", "contract")) : SolObjFullName × String × String).1.name =
      "Foo" ∧
    ((⟨"Foo", [], none⟩, ("d1", "contract")) : SolObjFullName × String × String) ∈
      [(⟨"Foo", [], none⟩, ("d1", "contract")), (⟨"Foo", ["A"], none⟩, ("d2", "contract"))] ∧
    ∃ pre post : Registry,
      ([(⟨"Foo", [], none⟩, ("d1", "contract")),
        (⟨"Foo", ["A"], none⟩, ("d2", "contract"))] : Registry) =
        pre ++ (⟨"Foo", [], none⟩, ("d1", "contract")) :: post ∧
      ∀ x ∈ pre, x.1.name ≠ "Foo" :=
  (C9_resolver_first_match
    [(⟨"Foo", [], none⟩, ("d1", "contract")), (⟨"Foo", ["A"], none⟩, ("d2", "contract"))]
    "Foo").2 (⟨"Foo", [], none⟩, ("d1", "contract")) (by decide)

theorem regLookup_of_mem_nodup (reg : Registry) (e : SolObjFullName × String × String)
    (fn : SolObjFullName) (hnd : (reg.map Prod.fst).Nodup) (he : e ∈ reg) (hk : e.1 = fn) :
    regLookup reg fn = some e.2 := by
  induction reg with
  | nil => simp at he
  | cons x t ih =>
    rw [List.map_cons, List.nodup_cons] at hnd
    rw [regLookup_cons]
    rcases List.mem_cons.mp he with rfl | he'
    · rw [if_pos hk]
    · have hx : x.1 ≠ fn := by
        intro hh
        exact hnd.1 (hh ▸ hk ▸ List.mem_map_of_mem Prod.fst he')
      rw [if_neg hx]
      exact ih hnd.2 he'

theorem find?_sel_of_lookup (other : Registry) (fn : SolObjFullName) (v : String × String)
    (docs : List String) (hv : regLookup other fn = some v) (hdoc : v.1 ∈ docs) :
    ∃ e, other.find? (fun e => e.1 == fn && decide (e.2.1 ∈ docs)) = some e ∧ e.2 = v := by
  induction other with
  | nil => simp [regLookup_nil] at hv
  | cons x t ih =>
    rw [regLookup_cons] at hv
    rw [List.find?_cons]
    by_cases hx : x.1 = fn
    · rw [if_pos hx] at hv
      obtain rfl : x.2 = v := Option.some.inj hv
      have hsel : (x.1 == fn && decide (x.2.1 ∈ docs)) = true := by
        simp [hx, hdoc]
      rw [hsel]
      exact ⟨x, rfl, rfl⟩
    · rw [if_neg hx] at hv
      have hsel : (x.1 == fn && decide (x.2.1 ∈ docs)) = false := by
        simp [hx]
      rw [hsel]
      exact ih hv

/-- C8 (counterexample): the frame half of the claim fails when the
partial registry reassigns a key that the global registry holds under a
different origin document: merging overwrites it, so an entry whose
origin is not `D` is changed. -/
theorem C8_counterexample :
    regLookup
      (mergeDomaindata
        (clearDoc [(⟨"F", [], none⟩, ("E", "contract"))] "D")
        [(⟨"F", [], none⟩, ("D", "function"))] ["D"])
      ⟨"F", [], none⟩ = some ("D", "function") ∧
    regLookup [(⟨"F", [], none⟩, ("E", "contract"))] ⟨"F", [], none⟩ =
      some ("E", "contract") ∧
    some (("D", "function") : String × String) ≠ some (("E", "contract") : String × String) := by
  decide

/-- C8 (amended): on duplicate-free registries, after `clear_doc D`
followed by `merge(partial, [D])`: the entries of origin `D` are exactly
the partial registry's entries of origin `D`; and an entry whose origin
is not `D` is unchanged *provided* the partial registry does not itself
register that `FullName` under origin `D` (merging overwrites such
keys — that is the corrected frame condition). -/
theorem C8_clear_then_merge (reg other : Registry) (D : String) (fn : SolObjFullName)
    (hreg : (reg.map Prod.fst).Nodup) (hother : (other.map Prod.fst).Nodup) :
    (∀ v, regLookup (mergeDomaindata (clearDoc reg D) other [D]) fn = some v → v.1 = D →
      regLookup other fn = some v) ∧
    (∀ v, regLookup other fn = some v → v.1 = D →
      regLookup (mergeDomaindata (clearDoc reg D) other [D]) fn = some v) ∧
    (∀ v, regLookup reg fn = some v → v.1 ≠ D →
      (∀ w, regLookup other fn = some w → w.1 ≠ D) →
      regLookup (mergeDomaindata (clearDoc reg D) other [D]) fn = some v) := by
  refine ⟨?_, ?_, ?_⟩
  · intro v hv hvD
    rw [regLookup_merge other _ [D] fn hother] at hv
    cases hfind : other.find? (fun e => e.1 == fn && decide (e.2.1 ∈ [D])) with
    | some e =>
      rw [hfind] at hv
      obtain rfl : e.2 = v := Option.some.inj hv
      have hsel := List.find?_some hfind
      have he1 : e.1 = fn := by
        simpa using ((Bool.and_eq_true _ _).mp hsel).1
      exact regLookup_of_mem_nodup other e fn hother (List.mem_of_find?_eq_some hfind) he1
    | none =>
      rw [hfind, regLookup_clearDoc reg D fn hreg] at hv
      cases hregv : regLookup reg fn with
      | none => rw [hregv] at hv; simp at hv
      | some w =>
        rw [hregv] at hv
        rw [Option.some_bind] at hv
        by_cases hwD : w.1 = D
        · rw [if_pos hwD] at hv
          simp at hv
        · rw [if_neg hwD] at hv
          obtain rfl : w = v := Option.some.inj hv
          exact absurd hvD hwD
  · intro v hv hvD
    rw [regLookup_merge other _ [D] fn hother]
    rcases find?_sel_of_lookup other fn v [D] hv (by simp [hvD]) with ⟨e, hfind, he2⟩
    rw [hfind]
    exact congrArg some he2
  · intro v hv hvD hw
    have hfind : other.find? (fun e => e.1 == fn && decide (e.2.1 ∈ [D])) = none := by
      cases hfind : other.find? (fun e => e.1 == fn && decide (e.2.1 ∈ [D])) with
      | none => rfl
      | some e =>
        have hsel := List.find?_some hfind
        have he1 : e.1 = fn := by
          simpa using ((Bool.and_eq_true _ _).mp hsel).1
        have heD : e.2.1 = D := by
          simpa using ((Bool.and_eq_true _ _).mp hsel).2
        have hlk := regLookup_of_mem_nodup other e fn hother
          (List.mem_of_find?_eq_some hfind) he1
        exact absurd heD (hw e.2 hlk)
    rw [regLookup_merge other _ [D] fn hother, hfind,
      regLookup_clearDoc reg D fn hreg, hv, Option.some_bind, if_neg hvD]

theorem C8_clear_then_merge_witness :
    regLookup (mergeDomaindata (clearDoc ([(⟨"G", [], none⟩, ("E", "contract"))] : Registry) "D")
      ([(⟨"F", [], none⟩, ("D", "function"))] : Registry) ["D"]) ⟨"F", [], none⟩ =
      some ("D", "function") ∧
    regLookup (mergeDomaindata (clearDoc ([(⟨"G", [], none⟩, ("E", "contract"))] : Registry) "D")
      ([(⟨"F", [], none⟩, ("D", "function"))] : Registry) ["D"]) ⟨"G", [], none⟩ =
      some ("E", "contract") :=
  ⟨(C8_clear_then_merge [(⟨"G", [], none⟩, ("E", "contract"))]
      [(⟨"F", [], none⟩, ("D", "function"))] "D" ⟨"F", [], none⟩ (by decide) (by decide)).2.1
      ("D", "function") (by decide) rfl,
   (C8_clear_then_merge [(⟨"G", [], none⟩, ("E", "contract"))]
      [(⟨"F", [], none⟩, ("D", "function"))] "D" ⟨"G", [], none⟩ (by decide) (by decide)).2.2
      ("E", "contract") (by decide) (by decide) (fun w hw => nomatch hw)⟩

/-- C3: anonymous-`function` parsing — `"() external payable"` in the
empty scope yields the synthetic name `<fallback>`, an empty parameter
list and modifiers `[external, payable]`; every anonymous function-kind
signature whose parameter list is non-empty (after stripping) fails with
`FallbackHasParams`; an anonymous constructor resolves to the name
`constructor`; and the remaining function-like kinds (`modifier`,
`event`) fail with `MissingName` when the name is absent. -/
theorem C3_fallback_rule :
    (handleFunctionLike "function" "() external payable" [] =
      .ok ⟨⟨"<fallback>", [], some []⟩, [], [("external", none), ("payable", none)]⟩) ∧
    (∀ sig obj_path pl ms, functionFullmatch sig = some (none, pl, ms) → pyStrip pl ≠ "" →
      handleFunctionLike "function" sig obj_path = .failed .fallbackHasParams) ∧
    (handleFunctionLike "function" "(uint256 x) external" [] = .failed .fallbackHasParams) ∧
    (∀ sig obj_path pl ms r, functionFullmatch sig = some (none, pl, ms) →
      handleFunctionLike "constructor" sig obj_path = .ok r →
      r.fullname.name = "constructor") ∧
    (handleFunctionLike "constructor" "()" [] = .ok ⟨⟨"constructor", [], none⟩, [], []⟩) ∧
    (∀ (t : ObjType) sig obj_path pl ms, (t = .modifier ∨ t = .event) →
      functionFullmatch sig = some (none, pl, ms) →
      handleFunctionLike t.toString sig obj_path = .failed .missingName) := by
  refine ⟨by decide, ?_, by decide, ?_, by decide, ?_⟩
  · intro sig obj_path pl ms h hpl
    simp only [handleFunctionLike, h]
    have hres : resolveName "function" none pl = .failed .fallbackHasParams := by
      unfold resolveName
      rw [if_neg (show ¬ ("function" : String) = "constructor" by decide), if_pos rfl,
        if_pos hpl]
    rw [hres]
  · intro sig obj_path pl ms r h hr
    simp only [handleFunctionLike, h] at hr
    rw [show resolveName "constructor" none pl = .ok "constructor" from rfl] at hr
    cases hp : _parse_params pl with
    | none => rw [hp] at hr; exact nomatch hr
    | some pr =>
      obtain ⟨ptexts, ptypes⟩ := pr
      rw [hp] at hr
      have hr2 : (match processModifiers (modifierFinditer ms) with
          | SigResult.failed e => SigResult.failed e
          | SigResult.raised => SigResult.raised
          | SigResult.ok _ =>
            SigResult.ok ⟨⟨"constructor", obj_path, none⟩, ptexts, modifierFinditer ms⟩) =
          SigResult.ok r := hr
      cases hm : processModifiers (modifierFinditer ms) with
      | ok u =>
        rw [hm] at hr2
        injection hr2 with hinj
        rw [← hinj]
      | failed e => rw [hm] at hr2; exact nomatch hr2
      | raised => rw [hm] at hr2; exact nomatch hr2
  · intro t sig obj_path pl ms ht h
    rcases ht with rfl | rfl
    · simp only [ObjType.toString, handleFunctionLike, h]
      have hres : resolveName "modifier" none pl = .failed .missingName := by
        unfold resolveName
        rw [if_neg (by decide), if_neg (by decide)]
      rw [hres]
    · simp only [ObjType.toString, handleFunctionLike, h]
      have hres : resolveName "event" none pl = .failed .missingName := by
        unfold resolveName
        rw [if_neg (by decide), if_neg (by decide)]
      rw [hres]

theorem C3_fallback_rule_witness :
    handleFunctionLike "function" "(uint x) payable" ["C"] = .failed .fallbackHasParams ∧
    (⟨⟨"constructor", ["C"], none⟩, ["address a"], []⟩ : FunctionSig).fullname.name =
      "constructor" ∧
    handleFunctionLike "modifier" "(uint x)" [] = .failed .missingName :=
  ⟨C3_fallback_rule.2.1 "(uint x) payable" ["C"] "uint x" "payable" (by decide) (by decide),
   C3_fallback_rule.2.2.2.1 "(address a)" ["C"] "address a" ""
     ⟨⟨"constructor", ["C"], none⟩, ["address a"], []⟩ (by decide) (by decide),
   C3_fallback_rule.2.2.2.2.2 .modifier "(uint x)" [] "uint x" "" (Or.inl rfl) (by decide)⟩

/-!
## Shape lemmas for the signature handlers
-/

theorem handleTypeLike_shape (sig : String) (obj_path : List String)
    (r : SolObjFullName × List String) (h : handleTypeLike sig obj_path = .ok r) :
    r.1.obj_path = obj_path ∧ r.1.param_types = none := by
  unfold handleTypeLike at h
  cases hc : contractFullmatch sig with
  | none => rw [hc] at h; exact nomatch h
  | some p =>
    obtain ⟨nm, ps⟩ := p
    rw [hc] at h
    injection h with hinj
    rw [← hinj]
    exact ⟨rfl, rfl⟩

theorem handleStateVariable_shape (sig : String) (obj_path : List String)
    (fn : SolObjFullName) (h : handleStateVariable sig obj_path = .ok fn) :
    fn.obj_path = obj_path ∧ fn.param_types = none := by
  unfold handleStateVariable at h
  cases hm : paramVarFullmatch sig with
  | none => rw [hm] at h; exact nomatch h
  | some m =>
    rw [hm] at h
    have h2 : (match m.name with
        | none => SigResult.failed ParseFailure.missingName
        | some name =>
          SigResult.ok (⟨name, obj_path, none⟩ : SolObjFullName)) = SigResult.ok fn := h
    cases hn : m.name with
    | none => rw [hn] at h2; exact nomatch h2
    | some n =>
      rw [hn] at h2
      injection h2 with hinj
      rw [← hinj]
      exact ⟨rfl, rfl⟩

theorem handleFunctionLike_param_types (objtype sig : String) (obj_path : List String)
    (r : FunctionSig) (h1 : objtype ≠ "function") (h2 : objtype ≠ "event")
    (h : handleFunctionLike objtype sig obj_path = .ok r) :
    r.fullname.param_types = none := by
  unfold handleFunctionLike at h
  cases hf : functionFullmatch sig with
  | none => rw [hf] at h; exact nomatch h
  | some p =>
    obtain ⟨nameOpt, pl, ms⟩ := p
    rw [hf] at h
    have ha : (match resolveName objtype nameOpt pl with
        | SigResult.failed e => SigResult.failed e
        | SigResult.raised => SigResult.raised
        | SigResult.ok name =>
          match _parse_params pl with
          | none => SigResult.raised
          | some (ptexts, param_types) =>
            if objtype = "modifier" ∧ pyStrip ms ≠ "" then
              SigResult.failed ParseFailure.modifierHasModifiers
            else match processModifiers (modifierFinditer ms) with
              | SigResult.failed e => SigResult.failed e
              | SigResult.raised => SigResult.raised
              | SigResult.ok _ =>
                SigResult.ok ⟨⟨name, obj_path,
                    if objtype = "function" ∨ objtype = "event" then some param_types
                    else none⟩,
                  ptexts, modifierFinditer ms⟩) = SigResult.ok r := h
    cases hn : resolveName objtype nameOpt pl with
    | failed e => rw [hn] at ha; exact nomatch ha
    | raised => rw [hn] at ha; exact nomatch ha
    | ok name =>
      rw [hn] at ha
      cases hp : _parse_params pl with
      | none => rw [hp] at ha; exact nomatch ha
      | some pr =>
        obtain ⟨ptexts, ptypes⟩ := pr
        rw [hp] at ha
        have hb : (if objtype = "modifier" ∧ pyStrip ms ≠ "" then
            SigResult.failed ParseFailure.modifierHasModifiers
          else match processModifiers (modifierFinditer ms) with
            | SigResult.failed e => SigResult.failed e
            | SigResult.raised => SigResult.raised
            | SigResult.ok _ =>
              SigResult.ok ⟨⟨name, obj_path,
                  if objtype = "function" ∨ objtype = "event" then some ptypes else none⟩,
                ptexts, modifierFinditer ms⟩) = SigResult.ok r := ha
        by_cases hmod : objtype = "modifier" ∧ pyStrip ms ≠ ""
        · rw [if_pos hmod] at hb
          exact nomatch hb
        · rw [if_neg hmod] at hb
          cases hpm : processModifiers (modifierFinditer ms) with
          | failed e => rw [hpm] at hb; exact nomatch hb
          | raised => rw [hpm] at hb; exact nomatch hb
          | ok u =>
            rw [hpm] at hb
            injection hb with hinj
            rw [← hinj]
            show (if objtype = "function" ∨ objtype = "event" then some ptypes else none) = none
            rw [if_neg (fun hc => hc.elim h1 h2)]

theorem typeLikeDispatch_param_types (sig : String) (obj_path : List String)
    (fn : SolObjFullName)
    (h : (match handleTypeLike sig obj_path with
          | SigResult.ok r => SigResult.ok r.1
          | SigResult.failed e => SigResult.failed e
          | SigResult.raised => SigResult.raised) = SigResult.ok fn) :
    fn.obj_path = obj_path ∧ fn.param_types = none := by
  cases hc : handleTypeLike sig obj_path with
  | ok r =>
    rw [hc] at h
    injection h with hinj
    rw [← hinj]
    exact handleTypeLike_shape sig obj_path r hc
  | failed e => rw [hc] at h; exact nomatch h
  | raised => rw [hc] at h; exact nomatch h

theorem funcLikeDispatch_param_types (objtype sig : String) (obj_path : List String)
    (fn : SolObjFullName) (h1 : objtype ≠ "function") (h2 : objtype ≠ "event")
    (h : (match handleFunctionLike objtype sig obj_path with
          | SigResult.ok r => SigResult.ok r.fullname
          | SigResult.failed e => SigResult.failed e
          | SigResult.raised => SigResult.raised) = SigResult.ok fn) :
    fn.param_types = none := by
  cases hc : handleFunctionLike objtype sig obj_path with
  | ok r =>
    rw [hc] at h
    injection h with hinj
    rw [← hinj]
    exact handleFunctionLike_param_types objtype sig obj_path r h1 h2 hc
  | failed e => rw [hc] at h; exact nomatch h
  | raised => rw [hc] at h; exact nomatch h

theorem insertObject_spec (reg : Registry) (fn : SolObjFullName) (docname objtype : String)
    (prev : String × String) (h : regLookup reg fn = some prev) :
    (insertObject reg fn docname objtype).1 = some (prev.1, docname) ∧
    regLookup (insertObject reg fn docname objtype).2 fn = some (docname, objtype) := by
  obtain ⟨p1, p2⟩ := prev
  unfold insertObject
  rw [h]
  exact ⟨rfl, regLookup_dictInsert_self reg fn (docname, objtype)⟩

theorem insertObject_snd (reg : Registry) (fn : SolObjFullName) (docname objtype : String) :
    (insertObject reg fn docname objtype).2 = dictInsert reg fn (docname, objtype) := by
  unfold insertObject
  cases hl : regLookup reg fn with
  | none => rfl
  | some p => obtain ⟨a, b⟩ := p; rfl

/-- C4: two `function` declarations named `transfer` in scope `["Token"]`
with ABI parameter types `["address","uint256"]` and
`["address","uint256","bytes"]` yield distinct full names whose canonical
ids are `Token.transfer(address,uint256)` and
`Token.transfer(address,uint256,bytes)`; every kind other than `function`
and `event` produces `param_types = none` (never `some []`); hence two
same-named `contract`s in one scope yield equal full names and the second
registry insert warns. -/
theorem C4_identity_disambiguation :
    (handleSignature .function "transfer(address to, uint256 value)" ["Token"] =
      .ok ⟨"transfer", ["Token"], some ["address", "uint256"]⟩) ∧
    (handleSignature .function "transfer(address to, uint256 value, bytes data)" ["Token"] =
      .ok ⟨"transfer", ["Token"], some ["address", "uint256", "bytes"]⟩) ∧
    ((⟨"transfer", ["Token"], some ["address", "uint256"]⟩ : SolObjFullName) ≠
      ⟨"transfer", ["Token"], some ["address", "uint256", "bytes"]⟩) ∧
    (fullname2id ⟨"transfer", ["Token"], some ["address", "uint256"]⟩ =
      "Token.transfer(address,uint256)") ∧
    (fullname2id ⟨"transfer", ["Token"], some ["address", "uint256", "bytes"]⟩ =
      "Token.transfer(address,uint256,bytes)") ∧
    (∀ (t : ObjType), t ≠ .function → t ≠ .event →
      ∀ sig obj_path fn, handleSignature t sig obj_path = .ok fn → fn.param_types = none) ∧
    (∀ sig sig2 obj_path (fn fn2 : SolObjFullName),
      handleSignature .contract sig obj_path = .ok fn →
      handleSignature .contract sig2 obj_path = .ok fn2 →
      fn.name = fn2.name → fn = fn2) ∧
    (∀ (reg : Registry) fn doc objtype doc2 objtype2,
      (insertObject (insertObject reg fn doc objtype).2 fn doc2 objtype2).1 =
        some (doc, doc2)) := by
  refine ⟨by decide, by decide, by decide, by decide, by decide, ?_, ?_, ?_⟩
  · intro t h1 h2 sig obj_path fn h
    cases t with
    | contract => exact (typeLikeDispatch_param_types sig obj_path fn h).2
    | library => exact (typeLikeDispatch_param_types sig obj_path fn h).2
    | interface => exact (typeLikeDispatch_param_types sig obj_path fn h).2
    | struct => exact (typeLikeDispatch_param_types sig obj_path fn h).2
    | enum => exact (typeLikeDispatch_param_types sig obj_path fn h).2
    | statevar => exact (handleStateVariable_shape sig obj_path fn h).2
    | constructor =>
      exact funcLikeDispatch_param_types "constructor" sig obj_path fn
        (by decide) (by decide) h
    | modifier =>
      exact funcLikeDispatch_param_types "modifier" sig obj_path fn
        (by decide) (by decide) h
    | event => exact absurd rfl h2
    | function => exact absurd rfl h1
  · intro sig sig2 obj_path fn fn2 h1 h2 hname
    have s1 := typeLikeDispatch_param_types sig obj_path fn h1
    have s2 := typeLikeDispatch_param_types sig2 obj_path fn2 h2
    obtain ⟨n, p, t⟩ := fn
    obtain ⟨n2, p2, t2⟩ := fn2
    simp only at hname s1 s2
    rw [hname, s1.1, s2.1, s1.2, s2.2]
  · intro reg fn doc objtype doc2 objtype2
    have h1 : regLookup (insertObject reg fn doc objtype).2 fn = some (doc, objtype) := by
      rw [insertObject_snd]
      exact regLookup_dictInsert_self reg fn (doc, objtype)
    exact (insertObject_spec _ fn doc2 objtype2 (doc, objtype) h1).1

theorem C4_identity_disambiguation_witness :
    (⟨"Token", ["S"], none⟩ : SolObjFullName).param_types = none ∧
    ((⟨"Token", [], none⟩ : SolObjFullName) = ⟨"Token", [], none⟩) ∧
    (insertObject (insertObject [] ⟨"Token", [], none⟩ "d1" "contract").2
      ⟨"Token", [], none⟩ "d2" "contract").1 = some ("d1", "d2") :=
  ⟨C4_identity_disambiguation.2.2.2.2.2.1 .contract (by decide) (by decide) "Token" ["S"]
      ⟨"Token", ["S"], none⟩ (by decide),
   C4_identity_disambiguation.2.2.2.2.2.2.1 "Token is A" "Token is B" []
     ⟨"Token", [], none⟩ ⟨"Token", [], none⟩ (by decide) (by decide) rfl,
   C4_identity_disambiguation.2.2.2.2.2.2.2 [] ⟨"Token", [], none⟩ "d1" "contract"
     "d2" "contract"⟩

/-!
## C1: idempotence of `normalize_type`

Proof outline.  Write `U = sub2 (sub1 s)` and `T = sub3 U`.
1. `post1 (sub1 s)`: after the first pass every whitespace character is
   followed by a word character or the end.
2. `wsok U`: after the second pass every whitespace character moreover
   has a word character (or the start) before it.
3. `sub3` preserves `wsok` and is idempotent on `wsok` inputs (it only
   turns some single whitespace characters into `' '` at fixed
   positions).
4. The two `replace` passes fuse into `repBoth`, and on a `wsok` input
   `sub2 (sub1 (repBoth T)) = T`: the spaces inserted by the replaces
   sit next to the non-word characters `(`, `=`, `>`, so the first two
   passes of the second normalization delete exactly them.
Assembling: `normalize (normalize s) = repBoth (sub3 (sub2 (sub1 (repBoth T))))
= repBoth (sub3 T) = repBoth T = normalize s`.
-/

theorem space_not_word (c : Char) (h : isSpaceChar c = true) : isWordChar c = false := by
  simp only [isSpaceChar, Bool.or_eq_true, decide_eq_true_eq] at h
  rcases h with ((((rfl | rfl) | rfl) | rfl) | rfl) | rfl <;> decide

theorem word_not_space (c : Char) (h : isWordChar c = true) : isSpaceChar c = false := by
  cases hs : isSpaceChar c with
  | false => rfl
  | true => rw [space_not_word c hs] at h; exact nomatch h

/-!
### Equation lemmas for the scan functions
-/

theorem sub1_cons_nonspace (c : Char) (l : List Char) (h : isSpaceChar c = false) :
    sub1 (c :: l) = c :: sub1 l := by
  rw [sub1.eq_def]
  simp [h]

theorem sub1_single_space (c : Char) (h : isSpaceChar c = true) : sub1 [c] = [c] := by
  rw [sub1.eq_def]
  simp [h]

theorem sub1_space_space (c d : Char) (ds : List Char) (hc : isSpaceChar c = true)
    (hd : isSpaceChar d = true) : sub1 (c :: d :: ds) = sub1 (d :: ds) := by
  rw [sub1.eq_def]
  simp [hc, hd]

theorem sub1_space_word (c d : Char) (ds : List Char) (hc : isSpaceChar c = true)
    (hd : isWordChar d = true) : sub1 (c :: d :: ds) = c :: d :: sub1 ds := by
  rw [sub1.eq_def]
  simp [hc, hd, word_not_space d hd]

theorem sub1_space_other (c d : Char) (ds : List Char) (hc : isSpaceChar c = true)
    (hd : isSpaceChar d = false) (hw : isWordChar d = false) :
    sub1 (c :: d :: ds) = d :: sub1 ds := by
  rw [sub1.eq_def]
  simp [hc, hd, hw]

theorem sub2go_nil (skip : Bool) : sub2go skip [] = [] := rfl

theorem sub2go_space_skip (c : Char) (l : List Char) (h : isSpaceChar c = true) :
    sub2go true (c :: l) = sub2go true l := by
  rw [sub2go.eq_def]
  simp [h]

theorem sub2go_word (skip : Bool) (c : Char) (l : List Char) (h : isWordChar c = true) :
    sub2go skip (c :: l) = c :: sub2go false l := by
  rw [sub2go.eq_def]
  simp [h, word_not_space c h]

theorem sub2go_other (skip : Bool) (c : Char) (l : List Char)
    (hs : skip = true → isSpaceChar c = false) (hw : isWordChar c = false) :
    sub2go skip (c :: l) = c :: sub2go true l := by
  rw [sub2go.eq_def]
  cases skip with
  | false => simp [hw]
  | true => simp [hs rfl, hw]

theorem post1_sub1 (l : List Char) : post1 (sub1 l) = true := by
  induction l using sub1.induct with
  | case1 => rfl
  | case2 d hd => simp [sub1_single_space d hd, post1, hd, headWordOrEnd]
  | case3 d hd d1 ds hd1 ih =>
    rw [sub1_space_space d d1 ds hd hd1]
    exact ih
  | case4 d hd d1 ds hd1 hw ih =>
    rw [sub1_space_word d d1 ds hd hw]
    simp [post1, hd, hw, word_not_space d1 hw, ih, headWordOrEnd]
  | case5 d hd d1 ds hd1 hw ih =>
    rw [sub1_space_other d d1 ds hd (by simpa using hd1) (by simpa using hw)]
    simp [post1, show isSpaceChar d1 = false from by simpa using hd1, ih]
  | case6 d ds hd ih =>
    rw [sub1_cons_nonspace d ds (by simpa using hd)]
    simp [post1, show isSpaceChar d = false from by simpa using hd, ih]

theorem wsokAux_cons (p : Bool) (c : Char) (l : List Char) :
    wsokAux p (c :: l) =
      ((if isSpaceChar c then p && headWordOrEnd l else true) && wsokAux (isWordChar c) l) :=
  rfl

theorem wsokAux_sub2go (l : List Char) : ∀ (skip p : Bool),
    post1 l = true → (skip = false → p = true) → wsokAux p (sub2go skip l) = true := by
  induction l with
  | nil => intro skip p _ _; rfl
  | cons c rest ih =>
    intro skip p hpost hsp
    simp only [post1, Bool.and_eq_true] at hpost
    obtain ⟨hg, hrest⟩ := hpost
    by_cases hsc : isSpaceChar c = true
    · have hnext : headWordOrEnd rest = true := by simpa [hsc] using hg
      cases hskip : skip with
      | true =>
        rw [sub2go_space_skip c rest hsc]
        exact ih true p hrest (by simp)
      | false =>
        have hp : p = true := hsp hskip
        have hw : isWordChar c = false := space_not_word c hsc
        rw [sub2go_other false c rest (by simp) hw]
        rw [wsokAux_cons, hw]
        simp only [hsc, if_true, hp, Bool.true_and, Bool.and_eq_true]
        constructor
        · cases rest with
          | nil => simp [sub2go_nil, headWordOrEnd]
          | cons d ds =>
            have hwd : isWordChar d = true := by simpa [headWordOrEnd] using hnext
            rw [sub2go_word true d ds hwd]
            simpa [headWordOrEnd] using hwd
        · exact ih true false hrest (by simp)
    · have hsc2 : isSpaceChar c = false := by simpa using hsc
      by_cases hwc : isWordChar c = true
      · rw [sub2go_word skip c rest hwc]
        rw [wsokAux_cons, hwc, hsc2]
        simp only [Bool.false_eq_true, if_false, Bool.true_and]
        exact ih false true hrest (fun _ => rfl)
      · have hwc2 : isWordChar c = false := by simpa using hwc
        rw [sub2go_other skip c rest (fun _ => hsc2) hwc2]
        rw [wsokAux_cons, hwc2, hsc2]
        simp only [Bool.false_eq_true, if_false, Bool.true_and]
        exact ih true false hrest (by simp)

theorem wsok_sub2_sub1 (l : List Char) : wsok (sub2 (sub1 l)) = true :=
  wsokAux_sub2go (sub1 l) false true (post1_sub1 l) (fun _ => rfl)

/-!
### `sub3` equations and invariants
-/

theorem sub3_cons_nonword (c : Char) (l : List Char) (h : isWordChar c = false) :
    sub3 (c :: l) = c :: sub3 l := by
  unfold sub3
  rw [sub3go.eq_def]
  simp [h]

theorem sub3_word_cons (c : Char) (l : List Char) (h : isWordChar c = true) :
    sub3 (c :: l) = sub3go (some (c, [])) l := by
  unfold sub3
  rw [sub3go.eq_def]
  simp [h]

theorem sub3_word_nil (c : Char) (h : isWordChar c = true) : sub3 [c] = [c] := by
  rw [sub3_word_cons c [] h]
  rfl

theorem sub3_word_word (c d : Char) (t : List Char) (hc : isWordChar c = true)
    (hd : isWordChar d = true) : sub3 (c :: d :: t) = c :: sub3 (d :: t) := by
  rw [sub3_word_cons c (d :: t) hc, sub3go.eq_def]
  simp [hd, word_not_space d hd, sub3_word_cons d t hd]

theorem sub3_word_other (c d : Char) (t : List Char) (hc : isWordChar c = true)
    (hd : isWordChar d = false) (hs : isSpaceChar d = false) :
    sub3 (c :: d :: t) = c :: d :: sub3 t := by
  rw [sub3_word_cons c (d :: t) hc, sub3go.eq_def]
  simp [hd, hs, sub3]

theorem sub3_word_space_nil (c s : Char) (hc : isWordChar c = true)
    (hs : isSpaceChar s = true) : sub3 [c, s] = [c, s] := by
  rw [sub3_word_cons c [s] hc, sub3go.eq_def]
  simp [hs]
  rfl

theorem sub3_word_space_word (c s d : Char) (t : List Char) (hc : isWordChar c = true)
    (hs : isSpaceChar s = true) (hd : isWordChar d = true) :
    sub3 (c :: s :: d :: t) = c :: ' ' :: d :: sub3 t := by
  rw [sub3_word_cons c (s :: d :: t) hc, sub3go.eq_def]
  simp only [hs, if_true]
  rw [sub3go.eq_def]
  simp [hd, word_not_space d hd, sub3]

theorem sub3go_pend_head (w : Char) (l : List Char) : ∀ acc : List Char,
    ∃ r, sub3go (some (w, acc)) l = w :: r := by
  induction l with
  | nil => intro acc; exact ⟨acc.reverse, rfl⟩
  | cons c rest ih =>
    intro acc
    rw [sub3go.eq_def]
    by_cases hsc : isSpaceChar c = true
    · simpa [hsc] using ih (c :: acc)
    · by_cases hwc : isWordChar c = true
      · by_cases hacc : acc.isEmpty
        · simp [hsc, hwc, hacc]
        · exact ⟨' ' :: c :: sub3go none rest, by simp [hsc, hwc, hacc]⟩
      · exact ⟨acc.reverse ++ c :: sub3go none rest, by simp [hsc, hwc]⟩

theorem sub3_head (c : Char) (l : List Char) : ∃ r, sub3 (c :: l) = c :: r := by
  by_cases hwc : isWordChar c = true
  · rw [sub3_word_cons c l hwc]
    exact sub3go_pend_head c l []
  · exact ⟨sub3 l, sub3_cons_nonword c l (by simpa using hwc)⟩

theorem headWordOrEnd_sub3 (l : List Char) (h : headWordOrEnd l = true) :
    headWordOrEnd (sub3 l) = true := by
  cases l with
  | nil => rfl
  | cons d t =>
    obtain ⟨r, hr⟩ := sub3_head d t
    rw [hr]
    simpa [headWordOrEnd] using h

theorem headNonSpace_sub3 (l : List Char) (h : headNonSpace l = true) :
    headNonSpace (sub3 l) = true := by
  cases l with
  | nil => rfl
  | cons d t =>
    obtain ⟨r, hr⟩ := sub3_head d t
    rw [hr]
    simpa [headNonSpace] using h

theorem wsokAux_mono (p : Bool) (l : List Char) (h : wsokAux p l = true) :
    wsokAux true l = true := by
  cases l with
  | nil => rfl
  | cons c rest =>
    rw [wsokAux_cons] at h ⊢
    by_cases hsc : isSpaceChar c = true
    · simp only [hsc, if_true, Bool.and_eq_true] at h ⊢
      exact ⟨by simp [h.1.2], h.2⟩
    · simpa [hsc] using h

theorem wsok_tail (c : Char) (l : List Char) (h : wsok (c :: l) = true) :
    wsokAux (isWordChar c) l = true := by
  unfold wsok at h
  rw [wsokAux_cons] at h
  exact ((Bool.and_eq_true _ _).mp h).2

theorem wsok_space_head (c : Char) (l : List Char) (h : wsok (c :: l) = true)
    (hs : isSpaceChar c = true) : headWordOrEnd l = true := by
  unfold wsok at h
  rw [wsokAux_cons] at h
  have := ((Bool.and_eq_true _ _).mp h).1
  simpa [hs] using this

theorem wsokAux_false_headNonSpace (l : List Char) (h : wsokAux false l = true) :
    headNonSpace l = true := by
  cases l with
  | nil => rfl
  | cons c rest =>
    rw [wsokAux_cons] at h
    by_cases hsc : isSpaceChar c = true
    · simp [hsc] at h
    · simp [headNonSpace, hsc]

theorem wsokAux_of_headNonSpace (p : Bool) (l : List Char) (hh : headNonSpace l = true)
    (h : wsokAux true l = true) : wsokAux p l = true := by
  cases l with
  | nil => rfl
  | cons c rest =>
    rw [wsokAux_cons] at h ⊢
    have hsc : isSpaceChar c = false := by simpa [headNonSpace] using hh
    simpa [hsc] using h

theorem sub3_wsok_idem : ∀ (n : Nat) (l : List Char), l.length ≤ n → wsok l = true →
    wsok (sub3 l) = true ∧ sub3 (sub3 l) = sub3 l := by
  intro n
  induction n with
  | zero =>
    intro l hl _
    obtain rfl : l = [] := List.eq_nil_of_length_eq_zero (Nat.le_zero.mp hl)
    exact ⟨rfl, rfl⟩
  | succ n ih =>
    intro l hl hw
    cases l with
    | nil => exact ⟨rfl, rfl⟩
    | cons c rest =>
      by_cases hwc : isWordChar c = true
      · cases rest with
        | nil =>
          rw [sub3_word_nil c hwc]
          exact ⟨hw, by rw [sub3_word_nil c hwc]⟩
        | cons d t =>
          by_cases hwd : isWordChar d = true
          · -- word word
            rw [sub3_word_word c d t hwc hwd]
            have hwt : wsok (d :: t) = true :=
              wsokAux_mono _ _ (wsok_tail c (d :: t) hw)
            have IH := ih (d :: t) (by simpa using Nat.le_of_succ_le_succ hl) hwt
            constructor
            · unfold wsok
              rw [wsokAux_cons]
              simp only [word_not_space c hwc, Bool.false_eq_true, if_false, Bool.true_and,
                hwc]
              exact IH.1
            · obtain ⟨r, hr⟩ := sub3_head d t
              rw [hr, sub3_word_word c d r hwc hwd, ← hr, IH.2]
          · by_cases hsd : isSpaceChar d = true
            · cases t with
              | nil =>
                rw [sub3_word_space_nil c d hwc hsd]
                exact ⟨hw, by rw [sub3_word_space_nil c d hwc hsd]⟩
              | cons e t2 =>
                have hwe : isWordChar e = true := by
                  have h1 := wsok_tail c (d :: e :: t2) hw
                  have h2 := wsokAux_mono _ _ h1
                  have := wsok_space_head d (e :: t2) h2 hsd
                  simpa [headWordOrEnd] using this
                rw [sub3_word_space_word c d e t2 hwc hsd hwe]
                have hwt2 : wsok t2 = true := by
                  have h1 := wsok_tail c (d :: e :: t2) hw
                  have h2 := wsokAux_mono _ _ h1
                  have h3 := wsok_tail d (e :: t2) h2
                  have h4 := wsokAux_mono _ _ h3
                  exact wsokAux_mono _ _ (wsok_tail e t2 h4)
                have IH := ih t2 (by
                  have : (c :: d :: e :: t2).length ≤ n + 1 := hl
                  simp only [List.length_cons] at this
                  omega) hwt2
                constructor
                · unfold wsok
                  rw [wsokAux_cons, wsokAux_cons, wsokAux_cons]
                  simp only [word_not_space c hwc, hwc, hwe, word_not_space e hwe,
                    Bool.false_eq_true, if_false, Bool.true_and]
                  simp only [show isSpaceChar ' ' = true from rfl, if_true,
                    show isWordChar ' ' = false from rfl, headWordOrEnd, hwe,
                    Bool.and_self, Bool.true_and]
                  exact IH.1
                · rw [sub3_word_space_word c ' ' e (sub3 t2) hwc rfl hwe, IH.2]
            · -- word then other
              have hsd2 : isSpaceChar d = false := by simpa using hsd
              have hwd2 : isWordChar d = false := by simpa using hwd
              rw [sub3_word_other c d t hwc hwd2 hsd2]
              have ht : wsokAux false t = true := by
                have h1 := wsok_tail c (d :: t) hw
                have h2 := wsokAux_mono _ _ h1
                have := wsok_tail d t h2
                rwa [hwd2] at this
              have hwt : wsok t = true := wsokAux_mono _ _ ht
              have IH := ih t (by
                have : (c :: d :: t).length ≤ n + 1 := hl
                simp only [List.length_cons] at this
                omega) hwt
              have hhead : headNonSpace (sub3 t) = true :=
                headNonSpace_sub3 t (wsokAux_false_headNonSpace t ht)
              constructor
              · unfold wsok
                rw [wsokAux_cons, wsokAux_cons]
                simp only [word_not_space c hwc, hsd2, hwd2, Bool.false_eq_true, if_false,
                  Bool.true_and]
                exact wsokAux_of_headNonSpace false (sub3 t) hhead IH.1
              · rw [sub3_word_other c d (sub3 t) hwc hwd2 hsd2, IH.2]
      · -- nonword head
        have hwc2 : isWordChar c = false := by simpa using hwc
        rw [sub3_cons_nonword c rest hwc2]
        have hrest : wsokAux false rest = true := by
          have := wsok_tail c rest hw
          rwa [hwc2] at this
        have hwrest : wsok rest = true := wsokAux_mono _ _ hrest
        have IH := ih rest (by simpa using Nat.le_of_succ_le_succ hl) hwrest
        have hhead : headNonSpace (sub3 rest) = true :=
          headNonSpace_sub3 rest (wsokAux_false_headNonSpace rest hrest)
        constructor
        · unfold wsok
          rw [wsokAux_cons]
          have htail : wsokAux (isWordChar c) (sub3 rest) = true := by
            rw [hwc2]
            exact wsokAux_of_headNonSpace false (sub3 rest) hhead IH.1
          rw [htail]
          by_cases hsc : isSpaceChar c = true
          · have hhw : headWordOrEnd rest = true := wsok_space_head c rest hw hsc
            simp [hsc, headWordOrEnd_sub3 rest hhw]
          · simp [hsc]
        · rw [sub3_cons_nonword c (sub3 rest) hwc2, IH.2]

theorem wsok_sub3 (l : List Char) (h : wsok l = true) : wsok (sub3 l) = true :=
  (sub3_wsok_idem l.length l (le_refl _) h).1

theorem sub3_idem (l : List Char) (h : wsok l = true) : sub3 (sub3 l) = sub3 l :=
  (sub3_wsok_idem l.length l (le_refl _) h).2

/-!
### Fusing the two replace passes
-/

theorem repArrow_copy (c : Char) (t : List Char)
    (h : ∀ t2, c :: t ≠ '=' :: '>' :: t2) :
    repArrow (c :: t) = c :: repArrow t := by
  rw [repArrow.eq_def]
  split
  · next t2 heq => exact absurd heq (h t2)
  · next x c2 t2 hne heq =>
    injection heq with h1 h2
    rw [h1, h2]
  · next x heq => exact nomatch heq

theorem repMapping_copy (c : Char) (t : List Char)
    (h : ∀ t2, c :: t ≠ 'm' :: 'a' :: 'p' :: 'p' :: 'i' :: 'n' :: 'g' :: '(' :: t2) :
    repMapping (c :: t) = c :: repMapping t := by
  rw [repMapping.eq_def]
  split
  · next t2 heq => exact absurd heq (h t2)
  · next x c2 t2 hne heq =>
    injection heq with h1 h2
    rw [h1, h2]
  · next x heq => exact nomatch heq

theorem repBoth_copy (c : Char) (t : List Char)
    (hm : ∀ t2, c :: t ≠ 'm' :: 'a' :: 'p' :: 'p' :: 'i' :: 'n' :: 'g' :: '(' :: t2)
    (ha : ∀ t2, c :: t ≠ '=' :: '>' :: t2) :
    repBoth (c :: t) = c :: repBoth t := by
  rw [repBoth.eq_def]
  split
  · next t2 heq => exact absurd heq (hm t2)
  · next t2 heq => exact absurd heq (ha t2)
  · next x c2 t2 hne1 hne2 heq =>
    injection heq with h1 h2
    rw [h1, h2]
  · next x heq => exact nomatch heq

theorem repMapping_head (l : List Char) : (repMapping l).head? = l.head? := by
  rw [repMapping.eq_def]
  split <;> rfl

theorem repArrow_no_eq_append (xs l : List Char) (h : ∀ c ∈ xs, c ≠ '=') :
    repArrow (xs ++ l) = xs ++ repArrow l := by
  induction xs with
  | nil => rfl
  | cons c xs ih =>
    have hc : c ≠ '=' := h c (List.mem_cons_self c xs)
    rw [List.cons_append,
      repArrow_copy c (xs ++ l) (fun t2 heq => hc (List.cons.inj heq).1)]
    rw [ih (fun x hx => h x (List.mem_cons_of_mem c hx))]
    rfl

theorem repFuse_aux : ∀ (n : Nat) (l : List Char), l.length ≤ n →
    repArrow (repMapping l) = repBoth l := by
  intro n
  induction n with
  | zero =>
    intro l hl
    obtain rfl : l = [] := List.eq_nil_of_length_eq_zero (Nat.le_zero.mp hl)
    rfl
  | succ n ih =>
    intro l hl
    by_cases hm : ∃ t, l = 'm' :: 'a' :: 'p' :: 'p' :: 'i' :: 'n' :: 'g' :: '(' :: t
    · obtain ⟨t, rfl⟩ := hm
      rw [show repMapping ('m' :: 'a' :: 'p' :: 'p' :: 'i' :: 'n' :: 'g' :: '(' :: t) =
        'm' :: 'a' :: 'p' :: 'p' :: 'i' :: 'n' :: 'g' :: ' ' :: '(' :: repMapping t from rfl]
      rw [show repBoth ('m' :: 'a' :: 'p' :: 'p' :: 'i' :: 'n' :: 'g' :: '(' :: t) =
        'm' :: 'a' :: 'p' :: 'p' :: 'i' :: 'n' :: 'g' :: ' ' :: '(' :: repBoth t from rfl]
      rw [show ('m' :: 'a' :: 'p' :: 'p' :: 'i' :: 'n' :: 'g' :: ' ' :: '(' :: repMapping t) =
        ['m', 'a', 'p', 'p', 'i', 'n', 'g', ' ', '('] ++ repMapping t from rfl]
      rw [repArrow_no_eq_append ['m', 'a', 'p', 'p', 'i', 'n', 'g', ' ', '('] (repMapping t)
        (by decide)]
      rw [ih t (by
        have : ('m' :: 'a' :: 'p' :: 'p' :: 'i' :: 'n' :: 'g' :: '(' :: t).length ≤ n + 1 := hl
        simp only [List.length_cons] at this
        omega)]
      rfl
    · by_cases ha : ∃ t, l = '=' :: '>' :: t
      · obtain ⟨t, rfl⟩ := ha
        rw [repMapping_copy '=' ('>' :: t)
          (fun t2 heq => by exact absurd (List.cons.inj heq).1 (by decide))]
        rw [repMapping_copy '>' t
          (fun t2 heq => by exact absurd (List.cons.inj heq).1 (by decide))]
        rw [show repArrow ('=' :: '>' :: repMapping t) =
          ' ' :: '=' :: '>' :: ' ' :: repArrow (repMapping t) from rfl]
        rw [show repBoth ('=' :: '>' :: t) = ' ' :: '=' :: '>' :: ' ' :: repBoth t from rfl]
        rw [ih t (by
          have : ('=' :: '>' :: t).length ≤ n + 1 := hl
          simp only [List.length_cons] at this
          omega)]
      · cases l with
        | nil => rfl
        | cons c t =>
          have hm2 : ∀ t2,
              c :: t ≠ 'm' :: 'a' :: 'p' :: 'p' :: 'i' :: 'n' :: 'g' :: '(' :: t2 :=
            fun t2 heq => hm ⟨t2, heq⟩
          have ha2 : ∀ t2, c :: t ≠ '=' :: '>' :: t2 := fun t2 heq => ha ⟨t2, heq⟩
          rw [repMapping_copy c t hm2, repBoth_copy c t hm2 ha2]
          have hcopy : repArrow (c :: repMapping t) = c :: repArrow (repMapping t) := by
            apply repArrow_copy
            intro t2 heq
            have h1 := (List.cons.inj heq).1
            have h2 := (List.cons.inj heq).2
            subst h1
            have hh : t.head? = some '>' := by rw [← repMapping_head, h2]; rfl
            cases t with
            | nil => exact nomatch hh
            | cons d t3 =>
              have hd : d = '>' := by simpa using hh
              exact ha2 t3 (by rw [hd])
          rw [hcopy, ih t (by simpa using Nat.le_of_succ_le_succ hl)]

theorem repFuse (l : List Char) : repArrow (repMapping l) = repBoth l :=
  repFuse_aux l.length l (le_refl _)

/-!
### The second pass undoes the inserted spaces
-/

theorem sub1_word_append (xs l : List Char) (h : ∀ c ∈ xs, isWordChar c = true) :
    sub1 (xs ++ l) = xs ++ sub1 l := by
  induction xs with
  | nil => rfl
  | cons c xs ih =>
    rw [List.cons_append,
      sub1_cons_nonspace c _ (word_not_space c (h c (List.mem_cons_self c xs))),
      ih (fun x hx => h x (List.mem_cons_of_mem c hx))]
    rfl

theorem sub2go_word_append (xs l : List Char) (h : ∀ c ∈ xs, isWordChar c = true) :
    sub2go false (xs ++ l) = xs ++ sub2go false l := by
  induction xs with
  | nil => rfl
  | cons c xs ih =>
    rw [List.cons_append, sub2go_word false c _ (h c (List.mem_cons_self c xs)),
      ih (fun x hx => h x (List.mem_cons_of_mem c hx))]
    rfl

theorem sub2go_true_of_headNonSpace (l : List Char) (h : headNonSpace l = true) :
    sub2go true l = sub2go false l := by
  cases l with
  | nil => rfl
  | cons c rest =>
    have hsc : isSpaceChar c = false := by simpa [headNonSpace] using h
    by_cases hwc : isWordChar c = true
    · rw [sub2go_word true c rest hwc, sub2go_word false c rest hwc]
    · rw [sub2go_other true c rest (fun _ => hsc) (by simpa using hwc),
        sub2go_other false c rest (fun _ => hsc) (by simpa using hwc)]

theorem wsokAux_peel (p : Bool) (c : Char) (l : List Char) (h : wsokAux p (c :: l) = true) :
    wsokAux (isWordChar c) l = true := by
  rw [wsokAux_cons] at h
  exact ((Bool.and_eq_true _ _).mp h).2

theorem repBoth_head_word (e : Char) (t : List Char) (h : isWordChar e = true) :
    ∃ R, repBoth (e :: t) = e :: R := by
  by_cases hm : ∃ t2, e :: t = 'm' :: 'a' :: 'p' :: 'p' :: 'i' :: 'n' :: 'g' :: '(' :: t2
  · obtain ⟨t2, heq⟩ := hm
    rw [heq]
    exact ⟨'a' :: 'p' :: 'p' :: 'i' :: 'n' :: 'g' :: ' ' :: '(' :: repBoth t2,
      by rw [show e = 'm' from (List.cons.inj heq).1]; rfl⟩
  · by_cases ha : ∃ t2, e :: t = '=' :: '>' :: t2
    · obtain ⟨t2, heq⟩ := ha
      exact absurd h (by rw [(List.cons.inj heq).1]; decide)
    · exact ⟨repBoth t, repBoth_copy e t (fun t2 heq => hm ⟨t2, heq⟩)
        (fun t2 heq => ha ⟨t2, heq⟩)⟩

/-- On a non-space-headed suffix, a single space in front of the fused
replacement is either kept (word head, to be removed by `sub2` later or
kept as a legitimate space) or removed by `sub1` at once. -/
theorem sub1_space_repBoth_word (e : Char) (t : List Char) (hw : isWordChar e = true) :
    sub1 (' ' :: repBoth (e :: t)) = ' ' :: sub1 (repBoth (e :: t)) := by
  obtain ⟨R, hR⟩ := repBoth_head_word e t hw
  rw [hR, sub1_space_word ' ' e R rfl hw, sub1_cons_nonspace e R (word_not_space e hw)]

theorem sub1_space_repBoth_other (e : Char) (t : List Char) (hw : isWordChar e = false)
    (hs : isSpaceChar e = false) :
    sub1 (' ' :: repBoth (e :: t)) = sub1 (repBoth (e :: t)) := by
  by_cases ha : ∃ t2, e :: t = '=' :: '>' :: t2
  · obtain ⟨t2, heq⟩ := ha
    rw [heq]
    rw [show repBoth ('=' :: '>' :: t2) = ' ' :: '=' :: '>' :: ' ' :: repBoth t2 from rfl]
    rw [sub1_space_space ' ' ' ' _ rfl rfl]
  · have hm : ∀ t2, e :: t ≠ 'm' :: 'a' :: 'p' :: 'p' :: 'i' :: 'n' :: 'g' :: '(' :: t2 := by
      intro t2 heq
      exact absurd hw (by rw [(List.cons.inj heq).1]; decide)
    rw [repBoth_copy e t hm (fun t2 heq => ha ⟨t2, heq⟩)]
    rw [sub1_space_other ' ' e _ rfl hs hw, sub1_cons_nonspace e _ hs]

theorem headNonSpace_sub1_repBoth (t : List Char) (h : headNonSpace t = true) :
    headNonSpace (sub1 (repBoth t)) = true := by
  cases t with
  | nil => rfl
  | cons e t2 =>
    have hs : isSpaceChar e = false := by simpa [headNonSpace] using h
    by_cases hw : isWordChar e = true
    · obtain ⟨R, hR⟩ := repBoth_head_word e t2 hw
      rw [hR, sub1_cons_nonspace e R hs]
      simp [headNonSpace, hs]
    · by_cases ha : ∃ t3, e :: t2 = '=' :: '>' :: t3
      · obtain ⟨t3, heq⟩ := ha
        rw [heq]
        rw [show repBoth ('=' :: '>' :: t3) = ' ' :: '=' :: '>' :: ' ' :: repBoth t3 from rfl]
        rw [sub1_space_other ' ' '=' _ rfl (by decide) (by decide)]
        rfl
      · have hm : ∀ t3, e :: t2 ≠ 'm' :: 'a' :: 'p' :: 'p' :: 'i' :: 'n' :: 'g' :: '(' :: t3 := by
          intro t3 heq
          exact absurd hw (by rw [(List.cons.inj heq).1]; simp; decide)
        rw [repBoth_copy e t2 hm (fun t3 heq => ha ⟨t3, heq⟩)]
        rw [sub1_cons_nonspace e _ hs]
        simp [headNonSpace, hs]

theorem sub2_sub1_repBoth : ∀ (n : Nat) (T : List Char), T.length ≤ n → wsok T = true →
    sub2 (sub1 (repBoth T)) = T := by
  intro n
  induction n with
  | zero =>
    intro T hl _
    obtain rfl : T = [] := List.eq_nil_of_length_eq_zero (Nat.le_zero.mp hl)
    rfl
  | succ n ih =>
    intro T hl hw
    by_cases hmap : ∃ t, T = 'm' :: 'a' :: 'p' :: 'p' :: 'i' :: 'n' :: 'g' :: '(' :: t
    · obtain ⟨t, rfl⟩ := hmap
      have s1 := wsokAux_peel _ 'm' _ hw
      have s2 := wsokAux_peel _ 'a' _ s1
      have s3 := wsokAux_peel _ 'p' _ s2
      have s4 := wsokAux_peel _ 'p' _ s3
      have s5 := wsokAux_peel _ 'i' _ s4
      have s6 := wsokAux_peel _ 'n' _ s5
      have s7 := wsokAux_peel _ 'g' _ s6
      have s8 : wsokAux false t = true := wsokAux_peel _ '(' _ s7
      have hns : headNonSpace t = true := wsokAux_false_headNonSpace t s8
      have hwt : wsok t = true := wsokAux_mono _ _ s8
      have hlen : t.length ≤ n := by
        have : ('m' :: 'a' :: 'p' :: 'p' :: 'i' :: 'n' :: 'g' :: '(' :: t).length ≤ n + 1 := hl
        simp only [List.length_cons] at this
        omega
      rw [show repBoth ('m' :: 'a' :: 'p' :: 'p' :: 'i' :: 'n' :: 'g' :: '(' :: t) =
        ['m', 'a', 'p', 'p', 'i', 'n', 'g'] ++ (' ' :: '(' :: repBoth t) from rfl]
      rw [sub1_word_append ['m', 'a', 'p', 'p', 'i', 'n', 'g'] _ (by decide)]
      rw [sub1_space_other ' ' '(' (repBoth t) rfl (by decide) (by decide)]
      unfold sub2
      rw [sub2go_word_append ['m', 'a', 'p', 'p', 'i', 'n', 'g'] _ (by decide)]
      rw [sub2go_other false '(' _ (fun h => nomatch h) (by decide)]
      rw [sub2go_true_of_headNonSpace _ (headNonSpace_sub1_repBoth t hns)]
      rw [show sub2go false (sub1 (repBoth t)) = sub2 (sub1 (repBoth t)) from rfl]
      rw [ih t hlen hwt]
      rfl
    · by_cases harr : ∃ t, T = '=' :: '>' :: t
      · obtain ⟨t, rfl⟩ := harr
        have s1 := wsokAux_peel _ '=' _ hw
        have s2 : wsokAux false t = true := wsokAux_peel _ '>' _ s1
        have hns : headNonSpace t = true := wsokAux_false_headNonSpace t s2
        have hwt : wsok t = true := wsokAux_mono _ _ s2
        have hlen : t.length ≤ n := by
          have : ('=' :: '>' :: t).length ≤ n + 1 := hl
          simp only [List.length_cons] at this
          omega
        rw [show repBoth ('=' :: '>' :: t) = ' ' :: '=' :: '>' :: ' ' :: repBoth t from rfl]
        rw [sub1_space_other ' ' '=' _ rfl (by decide) (by decide)]
        rw [sub1_cons_nonspace '>' _ (by decide)]
        cases t with
        | nil => decide
        | cons e t2 =>
          have hse : isSpaceChar e = false := by simpa [headNonSpace] using hns
          by_cases hwe : isWordChar e = true
          · rw [sub1_space_repBoth_word e t2 hwe]
            unfold sub2
            rw [sub2go_other false '=' _ (fun h => nomatch h) (by decide)]
            rw [sub2go_other true '>' _ (fun _ => by decide) (by decide)]
            rw [sub2go_space_skip ' ' _ rfl]
            rw [sub2go_true_of_headNonSpace _ (headNonSpace_sub1_repBoth (e :: t2) hns)]
            rw [show sub2go false (sub1 (repBoth (e :: t2))) =
              sub2 (sub1 (repBoth (e :: t2))) from rfl]
            rw [ih (e :: t2) hlen hwt]
          · rw [sub1_space_repBoth_other e t2 (by simpa using hwe) hse]
            unfold sub2
            rw [sub2go_other false '=' _ (fun h => nomatch h) (by decide)]
            rw [sub2go_other true '>' _ (fun _ => by decide) (by decide)]
            rw [sub2go_true_of_headNonSpace _ (headNonSpace_sub1_repBoth (e :: t2) hns)]
            rw [show sub2go false (sub1 (repBoth (e :: t2))) =
              sub2 (sub1 (repBoth (e :: t2))) from rfl]
            rw [ih (e :: t2) hlen hwt]
      · cases T with
        | nil => rfl
        | cons c t =>
          have hm2 : ∀ t2,
              c :: t ≠ 'm' :: 'a' :: 'p' :: 'p' :: 'i' :: 'n' :: 'g' :: '(' :: t2 :=
            fun t2 heq => hmap ⟨t2, heq⟩
          have ha2 : ∀ t2, c :: t ≠ '=' :: '>' :: t2 := fun t2 heq => harr ⟨t2, heq⟩
          rw [repBoth_copy c t hm2 ha2]
          have hlen : t.length ≤ n := by simpa using Nat.le_of_succ_le_succ hl
          by_cases hwc : isWordChar c = true
          · have hwt : wsok t = true := wsokAux_mono _ _ (wsokAux_peel _ c _ hw)
            rw [sub1_cons_nonspace c _ (word_not_space c hwc)]
            unfold sub2
            rw [sub2go_word false c _ hwc]
            rw [show sub2go false (sub1 (repBoth t)) = sub2 (sub1 (repBoth t)) from rfl]
            rw [ih t hlen hwt]
          · have hwc2 : isWordChar c = false := by simpa using hwc
            have st : wsokAux false t = true := by
              have := wsokAux_peel _ c _ hw
              rwa [hwc2] at this
            have hwt : wsok t = true := wsokAux_mono _ _ st
            by_cases hsc : isSpaceChar c = true
            · have hhw : headWordOrEnd t = true := wsok_space_head c t hw hsc
              cases t with
              | nil =>
                rw [show repBoth [] = [] from rfl, sub1_single_space c hsc]
                unfold sub2
                rw [sub2go_other false c [] (fun h => nomatch h) hwc2]
                rfl
              | cons e t2 =>
                have hwe : isWordChar e = true := by simpa [headWordOrEnd] using hhw
                obtain ⟨R, hR⟩ := repBoth_head_word e t2 hwe
                rw [hR, sub1_space_word c e R hsc hwe, ← sub1_cons_nonspace e R
                  (word_not_space e hwe), ← hR]
                unfold sub2
                rw [sub2go_other false c _ (fun h => nomatch h) hwc2]
                rw [sub2go_true_of_headNonSpace _ (headNonSpace_sub1_repBoth (e :: t2)
                  (by simp [headNonSpace, word_not_space e hwe]))]
                rw [show sub2go false (sub1 (repBoth (e :: t2))) =
                  sub2 (sub1 (repBoth (e :: t2))) from rfl]
                rw [ih (e :: t2) hlen hwt]
            · have hsc2 : isSpaceChar c = false := by simpa using hsc
              have hns : headNonSpace t = true := wsokAux_false_headNonSpace t st
              rw [sub1_cons_nonspace c _ hsc2]
              unfold sub2
              rw [sub2go_other false c _ (fun h => nomatch h) hwc2]
              rw [sub2go_true_of_headNonSpace _ (headNonSpace_sub1_repBoth t hns)]
              rw [show sub2go false (sub1 (repBoth t)) = sub2 (sub1 (repBoth t)) from rfl]
              rw [ih t hlen hwt]

/-- C1: the type normalizer is idempotent — for every input string,
`normalize_type (normalize_type s) = normalize_type s`. -/
theorem C1_normalize_idempotent (s : String) :
    normalize_type (normalize_type s) = normalize_type s := by
  unfold normalize_type
  rw [show ∀ l : List Char, (String.mk l).toList = l from fun l => rfl]
  rw [repFuse (sub3 (sub2 (sub1 s.toList)))]
  have hwU : wsok (sub2 (sub1 s.toList)) = true := wsok_sub2_sub1 s.toList
  have hwT : wsok (sub3 (sub2 (sub1 s.toList))) = true := wsok_sub3 _ hwU
  rw [sub2_sub1_repBoth (sub3 (sub2 (sub1 s.toList))).length
    (sub3 (sub2 (sub1 s.toList))) (le_refl _) hwT]
  rw [sub3_idem (sub2 (sub1 s.toList)) hwU]
  rw [repFuse (sub3 (sub2 (sub1 s.toList)))]
